import Mathlib

set_option linter.unusedVariables false

/-!
Shallow embedding of the event-derivation core of `openvpn_logger.py`
(`OpenVPNLogParser` and its helpers).

Modelling conventions:
* Python strings are modelled as lists of characters (`Str`); file contents are
  ASCII so character offsets coincide with the byte offsets the code tracks.
* A file the parser reads is modelled by its full contents (`Option Str`,
  `none` when the file does not exist).
* `datetime.now()` timestamps and the `server_name` / `server_location` /
  `session_duration` fields of `ConnectionEvent` (environment-constant or
  always-`None` at the modelled call sites) are omitted from the record.
* Python `int()` is modelled on the fragment this program feeds it: a
  non-empty digit string succeeds, anything else raises (modelled as `none`,
  propagated as `Except.error`).
* `re.search` for the two fixed patterns of the source is modelled by a
  first-match scan over start positions; at a fixed start position both
  patterns match deterministically by maximal munch (each `X+` group is
  followed by a character it cannot contain), so the scan coincides with the
  backtracking regex engine on these patterns.
-/

abbrev Str := List Char

def digitsVal (s : Str) : Nat :=
  s.foldl (fun a c => a * 10 + (c.toNat - 48)) 0

def pyIsDigit (s : Str) : Bool :=
  !s.isEmpty && s.all Char.isDigit

def pyInt (s : Str) : Option Nat :=
  if pyIsDigit s then some (digitsVal s) else none

def digitChar (d : Nat) : Char := Char.ofNat (48 + d)

/-- Decimal digits of a natural number (the model of Python `f"{n}"` for a
nonnegative `int`), written with explicit fuel so that it reduces in the
kernel. -/
def natDigitsCore : Nat → Nat → Str → Str
  | 0, _, acc => acc
  | fuel + 1, n, acc =>
    if n < 10 then digitChar n :: acc
    else natDigitsCore fuel (n / 10) (digitChar (n % 10) :: acc)

def natDigits (n : Nat) : Str := natDigitsCore (n + 1) n []

/-- Model of Python `str.split(sep)` for a one-character separator. -/
def splitOnChar (c : Char) : Str → List Str
  | [] => [[]]
  | x :: xs =>
    match splitOnChar c xs with
    | [] => [[]]
    | h :: t => if x = c then [] :: h :: t else (x :: h) :: t

/-- Inverse of `splitOnChar`: re-joins the pieces with the separator. -/
def joinWithChar (c : Char) : List Str → Str
  | [] => []
  | [s] => s
  | s :: rest => s ++ c :: joinWithChar c rest

/-- Model of Python `s.rsplit(':', 1)` when `':' in s`: split at the last
colon. -/
def rsplitColon (s : Str) : Str × Str :=
  let r := s.reverse
  let p := r.span (fun c => c ≠ ':')
  match p.2 with
  | ':' :: ipr => (ipr.reverse, p.1.reverse)
  | _ => (s, [])

/-- Session key `f"{ip}:{port}"` as used throughout the source. -/
def sessionKey (ip : Str) (port : Nat) : Str := ip ++ ':' :: natDigits port

def takeDigits (s : Str) : Str × Str := s.span Char.isDigit

/-- Matches `\d+\.\d+\.\d+\.\d+` at the start of `s`; returns the matched
text and the rest. -/
def parseIPv4 (s : Str) : Option (Str × Str) :=
  let a := takeDigits s
  if a.1.isEmpty then none else
  match a.2 with
  | '.' :: r1 =>
    let b := takeDigits r1
    if b.1.isEmpty then none else
    match b.2 with
    | '.' :: r2 =>
      let c := takeDigits r2
      if c.1.isEmpty then none else
      match c.2 with
      | '.' :: r3 =>
        let d := takeDigits r3
        if d.1.isEmpty then none else
        some (a.1 ++ '.' :: b.1 ++ '.' :: c.1 ++ '.' :: d.1, d.2)
      | _ => none
    | _ => none
  | _ => none

/-- One attempt of the login pattern
`(\d+\.\d+\.\d+\.\d+):(\d+)\s+\[([^\]]+)\]\s+Peer Connection Initiated`
anchored at the start of `s`; returns `(client_ip, client_port, username)`. -/
def loginAt (s : Str) : Option (Str × Nat × Str) :=
  match parseIPv4 s with
  | none => none
  | some (ip, r0) =>
    match r0 with
    | ':' :: r1 =>
      let p := takeDigits r1
      if p.1.isEmpty then none else
      let sp1 := p.2.span Char.isWhitespace
      if sp1.1.isEmpty then none else
      match sp1.2 with
      | '[' :: r4 =>
        let u := r4.span (fun c => c ≠ ']')
        if u.1.isEmpty then none else
        match u.2 with
        | ']' :: r6 =>
          let sp2 := r6.span Char.isWhitespace
          if sp2.1.isEmpty then none else
          if ("Peer Connection Initiated".toList).isPrefixOf sp2.2 then
            some (ip, digitsVal p.1, u.1)
          else none
        | _ => none
      | _ => none
    | _ => none

/-- Model of `re.search` for the login pattern: first start position at
which `loginAt` matches. -/
def searchLogin : Str → Option (Str × Nat × Str)
  | [] => none
  | c :: rest =>
    match loginAt (c :: rest) with
    | some r => some r
    | none => searchLogin rest

/-- One attempt of the logout pattern
`([^/]+)/(\d+\.\d+\.\d+\.\d+):(\d+)\s+SIGTERM\[soft,remote-exit\]`
anchored at the start of `s`; returns `(username, client_ip, client_port)`. -/
def logoutAt (s : Str) : Option (Str × Str × Nat) :=
  let u := s.span (fun c => c ≠ '/')
  if u.1.isEmpty then none else
  match u.2 with
  | '/' :: r1 =>
    match parseIPv4 r1 with
    | none => none
    | some (ip, r2) =>
      match r2 with
      | ':' :: r3 =>
        let p := takeDigits r3
        if p.1.isEmpty then none else
        let sp := p.2.span Char.isWhitespace
        if sp.1.isEmpty then none else
        if ("SIGTERM[soft,remote-exit]".toList).isPrefixOf sp.2 then
          some (u.1, ip, digitsVal p.1)
        else none
      | _ => none
  | _ => none

/-- Model of `re.search` for the logout pattern. -/
def searchLogout : Str → Option (Str × Str × Nat)
  | [] => none
  | c :: rest =>
    match logoutAt (c :: rest) with
    | some r => some r
    | none => searchLogout rest

/-- Source method `OpenVPNLogParser.extract_username_from_log`: returns
`(username, session_id, client_ip, client_port)` on a match. -/
def extract_username_from_log (line : Str) : Option (Str × Str × Str × Nat) :=
  match searchLogin line with
  | some (ip, port, u) => some (u, sessionKey ip port, ip, port)
  | none => none

/-- Source method `OpenVPNLogParser.detect_logout_from_log`: returns
`(username, session_id, client_ip, client_port)` on a match. -/
def detect_logout_from_log (line : Str) : Option (Str × Str × Str × Nat) :=
  match searchLogout line with
  | some (u, ip, port) => some (u, sessionKey ip port, ip, port)
  | none => none

/-- The event type strings used by the source. -/
def connectT : Str := "connect".toList

def authT : Str := "authenticated".toList

def disconnectT : Str := "disconnect".toList

/-- The `ConnectionEvent` dataclass (timestamp and the environment-constant
server fields omitted; see the module docstring). -/
structure ConnectionEvent where
  event_type : Str
  client_ip : Str
  client_port : Nat
  username : Option Str := none
  virtual_ip : Option Str := none
  bytes_received : Option Nat := none
  bytes_sent : Option Nat := none
deriving DecidableEq, Repr

/-- The session key `f"{event.client_ip}:{event.client_port}"` computed from
an event, as in `process_logs`. -/
def keyOf (e : ConnectionEvent) : Str := sessionKey e.client_ip e.client_port

/-! `self.active_sessions` is a Python dict `session_id -> username`;
modelled as an association list with unique keys. -/

instance {ε α : Type} [DecidableEq ε] [DecidableEq α] : DecidableEq (Except ε α) :=
  fun x y =>
    match x, y with
    | .error a, .error b =>
      if h : a = b then isTrue (by rw [h]) else isFalse (fun hh => by cases hh; exact h rfl)
    | .ok a, .ok b =>
      if h : a = b then isTrue (by rw [h]) else isFalse (fun hh => by cases hh; exact h rfl)
    | .error _, .ok _ => isFalse (fun hh => by cases hh)
    | .ok _, .error _ => isFalse (fun hh => by cases hh)

def dictContains (d : List (Str × Str)) (k : Str) : Bool :=
  d.any (fun p => decide (p.1 = k))

def dictGet (d : List (Str × Str)) (k : Str) : Option Str :=
  match d.find? (fun p => decide (p.1 = k)) with
  | some p => some p.2
  | none => none

def dictSet (d : List (Str × Str)) (k v : Str) : List (Str × Str) :=
  if dictContains d k then d.map (fun p => if p.1 = k then (k, v) else p)
  else d ++ [(k, v)]

def dictRemove (d : List (Str × Str)) (k : Str) : List (Str × Str) :=
  d.filter (fun p => decide (p.1 ≠ k))

/-- Parser state: the mutable fields of `OpenVPNLogParser` that the modelled
methods touch.  (`last_position` is read only by `get_new_lines`, which no
modelled call path uses: `process_logs` reads the status file in full.) -/
structure ParserState where
  last_clients : List Str
  active_sessions : List (Str × Str)
  log_last_position : Nat
deriving DecidableEq, Repr

/-- Source method `OpenVPNLogParser.get_new_log_lines`: seek to the stored offset and read
the remaining lines, then record the new position.  Seeking past
end-of-file reads nothing and leaves the position where it was. -/
def get_new_log_lines : Option Str → Nat → List Str × Nat
  | none, pos => ([], pos)
  | some content, pos =>
    if pos ≤ content.length then
      (splitOnChar '\n' (content.drop pos), content.length)
    else ([], pos)

/-- Python `set.add` on `current_clients`, modelled as an insertion-ordered
duplicate-free list. -/
def addToSet (s : List Str) (k : Str) : List Str :=
  if k ∈ s then s else s ++ [k]

/-- Field extraction for one line of the `for line in lines` loop of
`parse_status_log`: `ok none` for a non-record or malformed (fewer than 8
fields) line, `ok (some (client_ip, client_port, username, virtual_address,
bytes_received, bytes_sent))` for a parsed record, and `error` for the
uncaught `ValueError` of `int()` on a non-numeric port suffix. -/
def lineRecord (line : Str) :
    Except Unit (Option (Str × Nat × Option Str × Str × Nat × Nat)) :=
  if ("CLIENT_LIST,".toList).isPrefixOf line then
    let parts := splitOnChar ',' line
    if 8 ≤ parts.length then
      let real_address := (parts[2]?).getD []
      let virtual_address := (parts[3]?).getD []
      let bytes_received := if pyIsDigit ((parts[5]?).getD []) then digitsVal ((parts[5]?).getD []) else 0
      let bytes_sent := if pyIsDigit ((parts[6]?).getD []) then digitsVal ((parts[6]?).getD []) else 0
      let username : Option Str := if 9 < parts.length then parts[9]? else none
      if ':' ∈ real_address then
        match pyInt (rsplitColon real_address).2 with
        | some p => .ok (some ((rsplitColon real_address).1, p, username,
                               virtual_address, bytes_received, bytes_sent))
        | none => .error ()
      else .ok (some (real_address, 0, username, virtual_address,
                      bytes_received, bytes_sent))
    else .ok none
  else .ok none

/-- The `connect` / `authenticated` events of `parse_status_log` share every
field except the type. -/
def mkStatusEvent (t ip : Str) (port : Nat) (u : Option Str) (va : Str)
    (br bs : Nat) : ConnectionEvent :=
  { event_type := t, client_ip := ip, client_port := port, username := u,
    virtual_ip := some va, bytes_received := some br, bytes_sent := some bs }

/-- The events one line contributes (a `connect` when the key is new
relative to `self.last_clients`, always an `authenticated`) and the
`client_id` it adds to `current_clients`. -/
def stepView (last_clients : List Str) (line : Str) :
    Except Unit (List ConnectionEvent × Option Str) :=
  match lineRecord line with
  | .error _ => .error ()
  | .ok none => .ok ([], none)
  | .ok (some (ip, port, u, va, br, bs)) =>
    .ok ((if sessionKey ip port ∈ last_clients then []
          else [mkStatusEvent connectT ip port u va br bs]) ++
           [mkStatusEvent authT ip port u va br bs],
         some (sessionKey ip port))

/-- The body of the `for line in lines` loop of `parse_status_log`: the
events contributed by one line and the updated `current_clients`. -/
def stepStatusLine (last_clients current : List Str) (line : Str) :
    Except Unit (List ConnectionEvent × List Str) :=
  match stepView last_clients line with
  | .error _ => .error ()
  | .ok (evs, none) => .ok (evs, current)
  | .ok (evs, some k) => .ok (evs, addToSet current k)

/-- The `for line in lines` loop of `parse_status_log`. -/
def parseLines (last_clients current : List Str) :
    List Str → Except Unit (List ConnectionEvent × List Str)
  | [] => .ok ([], current)
  | line :: rest =>
    match stepStatusLine last_clients current line with
    | .error _ => .error ()
    | .ok (evs, cur) =>
      match parseLines last_clients cur rest with
      | .error _ => .error ()
      | .ok (evs', cur') => .ok (evs ++ evs', cur')

/-- The disconnect event built for one departed `client_id` in the
`self.last_clients - current_clients` loop of `parse_status_log`. -/
def mkSnapshotDisconnect (client_id : Str) : Except Unit ConnectionEvent :=
  if ':' ∈ client_id then
    match pyInt (rsplitColon client_id).2 with
    | some p => .ok { event_type := disconnectT,
                      client_ip := (rsplitColon client_id).1, client_port := p }
    | none => .error ()
  else .ok { event_type := disconnectT, client_ip := client_id, client_port := 0 }

def mapSnapshotDisconnects : List Str → Except Unit (List ConnectionEvent)
  | [] => .ok []
  | g :: rest =>
    match mkSnapshotDisconnect g with
    | .error _ => .error ()
    | .ok e =>
      match mapSnapshotDisconnects rest with
      | .error _ => .error ()
      | .ok es => .ok (e :: es)

/-- Source method `OpenVPNLogParser.parse_status_log`: per-record connect/authenticated
events in line order, followed by one disconnect per departed client; on
success also returns the new `current_clients` (which the caller stores
into `last_clients`).  An error models an uncaught exception, in which case
`self.last_clients` is left unchanged. -/
def parse_status_log (last_clients : List Str) (content : Str) :
    Except Unit (List ConnectionEvent × List Str) :=
  match parseLines last_clients [] (splitOnChar '\n' content) with
  | .error _ => .error ()
  | .ok (evs, current) =>
    match mapSnapshotDisconnects (last_clients.filter (fun g => !(decide (g ∈ current)))) with
    | .error _ => .error ()
    | .ok discs => .ok (evs ++ discs, current)

/-- The `for line in log_lines` loop of `process_logs`: record usernames
from login matches, emit a disconnect per logout match and drop the session
from `active_sessions`. -/
def scanLogLines (sessions : List (Str × Str)) :
    List Str → List ConnectionEvent × List (Str × Str)
  | [] => ([], sessions)
  | line :: rest =>
    let s1 := match extract_username_from_log line with
      | some (u, sid, _, _) => dictSet sessions sid u
      | none => sessions
    match detect_logout_from_log line with
    | some (u, sid, ip, port) =>
      let r := scanLogLines (dictRemove s1 sid) rest
      ({ event_type := disconnectT, client_ip := ip, client_port := port,
         username := some u } :: r.1, r.2)
    | none => scanLogLines s1 rest

/-- Username enrichment of one status event from `active_sessions`
(`event.username = self.active_sessions[session_id]` when present). -/
def enrichOne (sessions : List (Str × Str)) (e : ConnectionEvent) : ConnectionEvent :=
  match dictGet sessions (keyOf e) with
  | some u => { e with username := some u }
  | none => e

/-- The `for event in status_events` loop of `process_logs`: enrich each
event's username from `active_sessions` and drop `connect` events whose
session is already registered. -/
def enrichFilter (sessions : List (Str × Str)) :
    List ConnectionEvent → List ConnectionEvent
  | [] => []
  | e :: rest =>
    if (enrichOne sessions e).event_type = connectT ∧ dictContains sessions (keyOf e) then
      enrichFilter sessions rest
    else enrichOne sessions e :: enrichFilter sessions rest

/-- Source method `OpenVPNLogParser.process_logs` for one poll cycle, given the current
contents of the main log file and of the status file (`none` = file does
not exist).  Returns the emitted events and the new parser state.  An
exception inside `parse_status_log` is caught by the surrounding
`try`/`except`, which returns `[]`; the state mutations already performed
(log offset, `active_sessions`) survive it, while `last_clients` is only
replaced on success. -/
def process_logs (st : ParserState) (logFile statusFile : Option Str) :
    List ConnectionEvent × ParserState :=
  let scanned := get_new_log_lines logFile st.log_last_position
  let logRes := scanLogLines st.active_sessions scanned.1
  match statusFile with
  | none =>
    (logRes.1, { st with active_sessions := logRes.2, log_last_position := scanned.2 })
  | some content =>
    match parse_status_log st.last_clients content with
    | .error _ =>
      ([], { st with active_sessions := logRes.2, log_last_position := scanned.2 })
    | .ok (statusEvents, current) =>
      (logRes.1 ++ enrichFilter logRes.2 statusEvents,
       { last_clients := current, active_sessions := logRes.2,
         log_last_position := scanned.2 })

/-- A sequence of poll cycles, each supplying the two file contents of that
cycle; returns the per-cycle event lists and the final state. -/
def runCycles (st : ParserState) :
    List (Option Str × Option Str) → List (List ConnectionEvent) × ParserState
  | [] => ([], st)
  | (lf, sf) :: rest =>
    let r := process_logs st lf sf
    let r' := runCycles r.2 rest
    (r.1 :: r'.1, r'.2)

def initState : ParserState := { last_clients := [], active_sessions := [], log_last_position := 0 }

/-- The session key a record line contributes to `current_clients`, if any
(its well-formedness and key are independent of `last_clients`). -/
def lineKey (line : Str) : Option Str :=
  match lineRecord line with
  | .ok (some (ip, port, _, _, _, _)) => some (sessionKey ip port)
  | _ => none

/-- The session key a log line registers a username for, if it matches the
login pattern. -/
def loginKey (line : Str) : Option Str :=
  match extract_username_from_log line with
  | some (_, sid, _, _) => some sid
  | none => none

/-- The session key a log line signals a logout for, if it matches the
logout pattern. -/
def logoutKey (line : Str) : Option Str :=
  match detect_logout_from_log line with
  | some (_, sid, _, _) => some sid
  | none => none

/-- The session keys contributed by the record lines of a snapshot, in line
order (one entry per well-formed `CLIENT_LIST` record). -/
def recordKeys (content : Str) : List Str :=
  (splitOnChar '\n' content).filterMap lineKey

/-- Number of events of type `t` with session key `K` in a list. -/
def countKey (t K : Str) (evs : List ConnectionEvent) : Nat :=
  (evs.filter (fun e => decide (e.event_type = t ∧ keyOf e = K))).length

/-- A stored `last_clients` entry is *normal* when the snapshot-disconnect
reconstruction `rsplit`/`int` round-trips it to itself.  Every key the code
itself stores (built by `sessionKey`) is normal; the predicate lets theorems
quantify over states without assuming reachability. -/
def isNormalKey (g : Str) : Bool :=
  match mkSnapshotDisconnect g with
  | .ok e => decide (keyOf e = g)
  | .error _ => false

/-! Concrete scenario inputs used by the counterexample/evaluation
theorems. -/

def exKey : Str := "10.0.0.5:5000".toList

def exSnap : Str := "CLIENT_LIST,alice,10.0.0.5:5000,10.8.0.4,,100,200,today".toList

def exLogoutLog : Str := "alice/10.0.0.5:5000 SIGTERM[soft,remote-exit] received".toList

def exLoginLog : Str := "10.0.0.5:5000 [alice] Peer Connection Initiated".toList

def exTwoSnap : Str :=
  ("CLIENT_LIST,a,1.1.1.1:1,10.8.0.1,,1,2,t\n" ++
   "CLIENT_LIST,b,2.2.2.2:2,10.8.0.2,,3,4,t").toList

def exBadPortSnap : Str := "CLIENT_LIST,bob,10.0.0.1:x,10.8.0.2,,5,6,t".toList

def exKey9 : Str := "1.2.3.4:9".toList

def exSnapUser : Str := "CLIENT_LIST,bob,1.2.3.4:9,10.8.0.9,,1,1,t,x,bob".toList

def exState9 : ParserState :=
  { last_clients := [exKey9],
    active_sessions := [(exKey9, "alice".toList)],
    log_last_position := 0 }

/-- Holds (`true`) iff no `connect` event occurs after an `authenticated` event.  Any
list ordered as four contiguous segments (logout disconnects, connects,
authenticated, snapshot disconnects) satisfies this, since every `connect`
would sit in the second segment and every `authenticated` in the third. -/
def connectAfterAuthFree (seenAuth : Bool) : List ConnectionEvent → Bool
  | [] => true
  | e :: r =>
    if e.event_type = connectT ∧ seenAuth = true then false
    else connectAfterAuthFree (seenAuth || decide (e.event_type = authT)) r

/-- The shape of the per-record middle block of a poll cycle's event list:
a sequence of `authenticated` events in which a `connect` may appear only
immediately before the `authenticated` event of the same session key. -/
inductive ConnAuthChain : List ConnectionEvent → Prop
  | nil : ConnAuthChain []
  | auth (e : ConnectionEvent) (rest : List ConnectionEvent) :
      e.event_type = authT → ConnAuthChain rest → ConnAuthChain (e :: rest)
  | pair (c a : ConnectionEvent) (rest : List ConnectionEvent) :
      c.event_type = connectT → a.event_type = authT → keyOf c = keyOf a →
      ConnAuthChain rest → ConnAuthChain (c :: a :: rest)

example : searchLogin ("10.0.0.5:5000 [alice] Peer Connection Initiated".toList)
    = some ("10.0.0.5".toList, 5000, "alice".toList) := by decide

example : searchLogout ("alice/10.0.0.5:5000 SIGTERM[soft,remote-exit] received".toList)
    = some ("alice".toList, "10.0.0.5".toList, 5000) := by decide

example : searchLogin ("random noise line".toList) = none := by decide

example : sessionKey ("10.0.0.5".toList) 5000 = "10.0.0.5:5000".toList := by decide

/-! ### Dictionary lemmas -/

theorem dictContains_iff {d : List (Str × Str)} {k : Str} :
    dictContains d k = true ↔ ∃ p ∈ d, p.1 = k := by
  simp [dictContains, List.any_eq_true]

theorem dictContains_cons (p : Str × Str) (d : List (Str × Str)) (k : Str) :
    dictContains (p :: d) k = (decide (p.1 = k) || dictContains d k) := rfl

theorem dictGet_cons_pos {p : Str × Str} {d : List (Str × Str)} {k : Str}
    (h : p.1 = k) : dictGet (p :: d) k = some p.2 := by
  unfold dictGet
  rw [List.find?_cons_of_pos _ (by simp [h])]

theorem dictGet_cons_neg {p : Str × Str} {d : List (Str × Str)} {k : Str}
    (h : ¬ p.1 = k) : dictGet (p :: d) k = dictGet d k := by
  unfold dictGet
  rw [List.find?_cons_of_neg _ (by simp [h])]

theorem dictGet_none_iff : ∀ (d : List (Str × Str)) (k : Str),
    dictGet d k = none ↔ dictContains d k = false
  | [], k => Iff.intro (fun _ => rfl) (fun _ => rfl)
  | p :: d, k => by
    by_cases h : p.1 = k
    · rw [dictGet_cons_pos h, dictContains_cons]
      simp [h]
    · rw [dictGet_cons_neg h, dictContains_cons, dictGet_none_iff d k]
      simp [h]

theorem dictGet_some_of_contains {d : List (Str × Str)} {k : Str}
    (h : dictContains d k = true) : ∃ u, dictGet d k = some u := by
  cases hg : dictGet d k with
  | some u => exact ⟨u, rfl⟩
  | none => rw [(dictGet_none_iff d k).mp hg] at h; cases h

theorem dictContains_of_get_some {d : List (Str × Str)} {k : Str} {u : Str}
    (h : dictGet d k = some u) : dictContains d k = true := by
  cases hc : dictContains d k with
  | true => rfl
  | false => rw [(dictGet_none_iff d k).mpr hc] at h; cases h

theorem dictContains_dictRemove_self (d : List (Str × Str)) (k : Str) :
    dictContains (dictRemove d k) k = false := by
  simp [dictContains, dictRemove, List.any_eq_true, List.mem_filter]

theorem dictRemove_cons (p : Str × Str) (d : List (Str × Str)) (k' : Str) :
    dictRemove (p :: d) k'
      = if p.1 = k' then dictRemove d k' else p :: dictRemove d k' := by
  unfold dictRemove
  rw [List.filter_cons]
  by_cases hp : p.1 = k'
  · rw [if_pos hp, show (decide (p.1 ≠ k')) = false by simp [hp]]
    rw [if_neg (fun hh => Bool.noConfusion hh)]
  · rw [if_neg hp, show (decide (p.1 ≠ k')) = true by simp [hp]]
    rw [if_pos rfl]

theorem dictContains_dictRemove_ne {k k' : Str} (h : k' ≠ k) :
    ∀ d : List (Str × Str), dictContains (dictRemove d k') k = dictContains d k
  | [] => rfl
  | p :: d => by
    rw [dictRemove_cons]
    by_cases hpk' : p.1 = k'
    · rw [if_pos hpk']
      have hpk : ¬ p.1 = k := by rw [hpk']; exact h
      rw [dictContains_cons]
      rw [dictContains_dictRemove_ne h d]
      simp [hpk]
    · rw [if_neg hpk']
      rw [dictContains_cons, dictContains_cons, dictContains_dictRemove_ne h d]

theorem dictGet_dictRemove_ne {k k' : Str} (h : k' ≠ k) :
    ∀ d : List (Str × Str), dictGet (dictRemove d k') k = dictGet d k
  | [] => rfl
  | p :: d => by
    rw [dictRemove_cons]
    by_cases hpk' : p.1 = k'
    · rw [if_pos hpk']
      have hpk : ¬ p.1 = k := by rw [hpk']; exact h
      rw [dictGet_cons_neg hpk]
      exact dictGet_dictRemove_ne h d
    · rw [if_neg hpk']
      by_cases hpk : p.1 = k
      · rw [dictGet_cons_pos hpk, dictGet_cons_pos hpk]
      · rw [dictGet_cons_neg hpk, dictGet_cons_neg hpk]
        exact dictGet_dictRemove_ne h d

theorem dictContains_dictSet_self (d : List (Str × Str)) (k v : Str) :
    dictContains (dictSet d k v) k = true := by
  unfold dictSet
  by_cases hc : dictContains d k = true
  · rw [if_pos hc]
    rw [dictContains_iff] at hc ⊢
    obtain ⟨p, hp, hpk⟩ := hc
    exact ⟨(k, v), List.mem_map.mpr ⟨p, hp, by simp [hpk]⟩, rfl⟩
  · rw [if_neg hc]
    rw [dictContains_iff]
    exact ⟨(k, v), by simp, rfl⟩

theorem dictContains_dictSet_mono {d : List (Str × Str)} {K : Str} (k v : Str)
    (h : dictContains d K = true) : dictContains (dictSet d k v) K = true := by
  unfold dictSet
  by_cases hc : dictContains d k = true
  · rw [if_pos hc]
    rw [dictContains_iff] at h ⊢
    obtain ⟨p, hp, hpk⟩ := h
    by_cases hk : p.1 = k
    · refine ⟨(k, v), List.mem_map.mpr ⟨p, hp, by simp [hk]⟩, ?_⟩
      show k = K
      rw [← hk]; exact hpk
    · exact ⟨p, List.mem_map.mpr ⟨p, hp, by simp [hk]⟩, hpk⟩
  · rw [if_neg hc]
    rw [dictContains_iff] at h ⊢
    obtain ⟨p, hp, hpk⟩ := h
    exact ⟨p, List.mem_append_left _ hp, hpk⟩

theorem dictGet_map_set : ∀ (d : List (Str × Str)) (k v : Str),
    dictContains d k = true →
    dictGet (d.map (fun p => if p.1 = k then (k, v) else p)) k = some v
  | [], k, v => fun hc => Bool.noConfusion hc
  | p :: d, k, v => fun hc => by
    rw [List.map_cons]
    by_cases hp : p.1 = k
    · rw [if_pos hp]
      exact dictGet_cons_pos rfl
    · rw [if_neg hp, dictGet_cons_neg hp]
      refine dictGet_map_set d k v ?_
      rw [dictContains_cons] at hc
      simpa [hp] using hc

theorem dictGet_append_single : ∀ (d : List (Str × Str)) (k v : Str),
    dictContains d k = false → dictGet (d ++ [(k, v)]) k = some v
  | [], k, v => fun _ => dictGet_cons_pos rfl
  | p :: d, k, v => fun hc => by
    rw [List.cons_append]
    have hp : ¬ p.1 = k := by
      intro hh
      rw [dictContains_cons, hh] at hc
      simp at hc
    rw [dictGet_cons_neg hp]
    refine dictGet_append_single d k v ?_
    rw [dictContains_cons] at hc
    simpa [hp] using hc

theorem dictGet_dictSet_self (d : List (Str × Str)) (k v : Str) :
    dictGet (dictSet d k v) k = some v := by
  unfold dictSet
  by_cases hc : dictContains d k = true
  · rw [if_pos hc]
    exact dictGet_map_set d k v hc
  · rw [if_neg hc]
    exact dictGet_append_single d k v (by simpa using hc)


/-! ### `scanLogLines` lemmas -/

theorem scanLogLines_events : ∀ (ls : List Str) (s : List (Str × Str)) (e : ConnectionEvent),
    e ∈ (scanLogLines s ls).1 →
    e.event_type = disconnectT ∧
      ∃ line ∈ ls, ∃ u sid ip p, detect_logout_from_log line = some (u, sid, ip, p) ∧
        keyOf e = sid ∧ e.username = some u
  | [], s, e => by simp [scanLogLines]
  | line :: rest, s, e => by
    intro hmem
    simp only [scanLogLines] at hmem
    cases hd : detect_logout_from_log line with
    | some r =>
      obtain ⟨u, sid, ip, p⟩ := r
      rw [hd] at hmem
      simp only [List.mem_cons] at hmem
      cases hmem with
      | inl he =>
        subst he
        refine ⟨rfl, line, by simp, u, sid, ip, p, hd, ?_, rfl⟩
        have : sid = sessionKey ip p := by
          unfold detect_logout_from_log at hd
          cases hs : searchLogout line with
          | some r' => obtain ⟨u', ip', p'⟩ := r'; rw [hs] at hd; cases hd; rfl
          | none => rw [hs] at hd; cases hd
        simp [keyOf, this]
      | inr he =>
        obtain ⟨ht, l', hl', rest'⟩ := scanLogLines_events rest _ e he
        exact ⟨ht, l', List.mem_cons_of_mem _ hl', rest'⟩
    | none =>
      rw [hd] at hmem
      obtain ⟨ht, l', hl', rest'⟩ := scanLogLines_events rest _ e hmem
      exact ⟨ht, l', List.mem_cons_of_mem _ hl', rest'⟩

theorem scanLogLines_contains_preserved :
    ∀ (ls : List Str) (s : List (Str × Str)) (K : Str),
    dictContains s K = true →
    (∀ line ∈ ls, logoutKey line ≠ some K) →
    dictContains (scanLogLines s ls).2 K = true
  | [], s, K => by intro h _; simpa [scanLogLines] using h
  | line :: rest, s, K => by
    intro h hno
    have hs1 : dictContains
        (match extract_username_from_log line with
         | some (u, sid, _, _) => dictSet s sid u
         | none => s) K = true := by
      cases hx : extract_username_from_log line with
      | some r => obtain ⟨u, sid, ip, p⟩ := r; exact dictContains_dictSet_mono _ _ h
      | none => exact h
    simp only [scanLogLines]
    cases hd : detect_logout_from_log line with
    | some r =>
      obtain ⟨u, sid, ip, p⟩ := r
      have hsidK : sid ≠ K := by
        intro hh
        exact hno line (by simp) (by simp [logoutKey, hd, hh])
      refine scanLogLines_contains_preserved rest _ K ?_ fun l hl => hno l (List.mem_cons_of_mem _ hl)
      rw [dictContains_dictRemove_ne hsidK]
      exact hs1
    | none =>
      exact scanLogLines_contains_preserved rest _ K hs1
        fun l hl => hno l (List.mem_cons_of_mem _ hl)

theorem scanLogLines_registers_login :
    ∀ (ls : List Str) (s : List (Str × Str)) (K : Str),
    (∃ line ∈ ls, loginKey line = some K) →
    (∀ line ∈ ls, logoutKey line ≠ some K) →
    dictContains (scanLogLines s ls).2 K = true
  | [], s, K => by rintro ⟨l, hl, _⟩ _; simp at hl
  | line :: rest, s, K => by
    rintro ⟨l, hl, hlk⟩ hno
    rcases List.mem_cons.mp hl with hl | hl
    · subst hl
      have hx : ∃ u ip p, extract_username_from_log l = some (u, K, ip, p) := by
        unfold loginKey at hlk
        cases hx : extract_username_from_log l with
        | some r =>
          obtain ⟨u, sid, ip, p⟩ := r
          rw [hx] at hlk; simp at hlk
          exact ⟨u, ip, p, by rw [hlk]⟩
        | none => rw [hx] at hlk; cases hlk
      obtain ⟨u, ip, p, hx⟩ := hx
      simp only [scanLogLines, hx]
      have hs1 : dictContains (dictSet s K u) K = true := dictContains_dictSet_self s K u
      cases hd : detect_logout_from_log l with
      | some r =>
        obtain ⟨u', sid', ip', p'⟩ := r
        have hsidK : sid' ≠ K := by
          intro hh
          exact hno l (by simp) (by simp [logoutKey, hd, hh])
        refine scanLogLines_contains_preserved rest _ K ?_
          fun l' hl' => hno l' (List.mem_cons_of_mem _ hl')
        rw [dictContains_dictRemove_ne hsidK]
        exact hs1
      | none =>
        exact scanLogLines_contains_preserved rest _ K hs1
          fun l' hl' => hno l' (List.mem_cons_of_mem _ hl')
    · simp only [scanLogLines]
      cases hd : detect_logout_from_log line with
      | some r =>
        obtain ⟨u, sid, ip, p⟩ := r
        exact scanLogLines_registers_login rest _ K ⟨l, hl, hlk⟩
          fun l' hl' => hno l' (List.mem_cons_of_mem _ hl')
      | none =>
        exact scanLogLines_registers_login rest _ K ⟨l, hl, hlk⟩
          fun l' hl' => hno l' (List.mem_cons_of_mem _ hl')

theorem scanLogLines_silent :
    ∀ (ls : List Str) (s : List (Str × Str)),
    (∀ line ∈ ls, extract_username_from_log line = none ∧
        detect_logout_from_log line = none) →
    scanLogLines s ls = ([], s)
  | [], s => by intro _; rfl
  | line :: rest, s => by
    intro h
    obtain ⟨hx, hd⟩ := h line (by simp)
    simp only [scanLogLines, hx, hd]
    exact scanLogLines_silent rest s fun l hl => h l (List.mem_cons_of_mem _ hl)

/-- C1: one matched logout signal for a session key followed by the key's
absence from the snapshot in the same cycle yields TWO `disconnect` events
for that key (the logout-derived one and the snapshot-derived one): the
code has no suppression, contradicting the documented no-duplicate
requirement. -/
theorem C1_duplicate_disconnect_eval :
    detect_logout_from_log exLogoutLog
      = some ("alice".toList, exKey, "10.0.0.5".toList, 5000) ∧
    countKey disconnectT exKey
      ((runCycles initState [(some [], some exSnap), (some exLogoutLog, some [])]).1.getD 1 [])
      = 2 := by
  decide

/-- C3 counterexample: with file contents `"abc"` (length 3) and recorded
offset 10 (file has shrunk), the scan neither resets the offset to zero nor
reads from the start of the file: it returns no lines and keeps offset 10. -/
theorem C3_counterexample :
    get_new_log_lines (some ("abc".toList)) 10 = ([], 10) ∧
    (get_new_log_lines (some ("abc".toList)) 10).2 ≠ 0 ∧
    (get_new_log_lines (some ("abc".toList)) 10).1 ≠ splitOnChar '\n' ("abc".toList) := by
  decide

/-- C4 counterexample: a snapshot-derived disconnect is finalized for key
`1.2.3.4:9` (one disconnect event emitted) yet the session-registry entry
for that key survives the cycle untouched. -/
theorem C4_counterexample :
    countKey disconnectT exKey9 (process_logs exState9 none (some [])).1 = 1 ∧
    (process_logs exState9 none (some [])).2.active_sessions
      = [(exKey9, "alice".toList)] := by
  decide

/-- C5 counterexample: a client record whose real address carries the
non-numeric port suffix `x` does not default the port to 0: parsing raises
and the whole poll cycle returns no events at all. -/
theorem C5_counterexample :
    parse_status_log [] exBadPortSnap = .error () ∧
    (process_logs initState none (some exBadPortSnap)).1 = [] := by
  decide

/-- C6 counterexample: a snapshot with two new records emits
`connect, authenticated, connect, authenticated` — the per-record events
interleave, so the claimed contiguous all-connects-then-all-authenticated
segmentation fails (a `connect` follows an `authenticated`). -/
theorem C6_counterexample :
    (process_logs initState none (some exTwoSnap)).1.map ConnectionEvent.event_type
      = [connectT, authT, connectT, authT] ∧
    connectAfterAuthFree false (process_logs initState none (some exTwoSnap)).1 = false := by
  decide

/-- C8 counterexample: the snapshot record itself supplies username `bob`
(field 9), yet the emitted authenticated event carries the registry's
`alice`: the registry overrides a snapshot-supplied username rather than
being used only when the record lacks one. -/
theorem C8_counterexample :
    (splitOnChar ',' exSnapUser)[9]? = some ("bob".toList) ∧
    (process_logs exState9 none (some exSnapUser)).1.map ConnectionEvent.username
      = [some ("alice".toList)] := by
  decide

/-! ### `splitOnChar` / `joinWithChar` -/

theorem splitOnChar_ne_nil (c : Char) : ∀ s : Str, splitOnChar c s ≠ []
  | [] => by simp [splitOnChar]
  | x :: xs => by
    simp only [splitOnChar]
    cases hs : splitOnChar c xs with
    | nil => simp
    | cons h t =>
      by_cases hx : x = c
      · simp [hx]
      · simp [hx]

theorem joinWithChar_splitOnChar (c : Char) :
    ∀ s : Str, joinWithChar c (splitOnChar c s) = s
  | [] => rfl
  | x :: xs => by
    have ih := joinWithChar_splitOnChar c xs
    cases hs : splitOnChar c xs with
    | nil => exact absurd hs (splitOnChar_ne_nil c xs)
    | cons h t =>
      rw [hs] at ih
      simp only [splitOnChar, hs]
      by_cases hx : x = c
      · rw [if_pos hx]
        show c :: joinWithChar c (h :: t) = x :: xs
        rw [ih, hx]
      · rw [if_neg hx]
        cases t with
        | nil =>
          show x :: h = x :: xs
          rw [show joinWithChar c [h] = h from rfl] at ih
          rw [ih]
        | cons h2 t2 =>
          show (x :: h) ++ c :: joinWithChar c (h2 :: t2) = x :: xs
          rw [List.cons_append]
          rw [show h ++ c :: joinWithChar c (h2 :: t2) = joinWithChar c (h :: h2 :: t2) from rfl]
          rw [ih]

/-- C3 (amended): the scan reads only bytes at or after the recorded offset
(the returned lines re-join to exactly the suffix of the file at that
offset), the offset never moves backwards, and when the file has shrunk
below the offset the scan returns no lines and leaves the offset unchanged
— it does NOT reset to zero or read from the start. -/
theorem C3_amended_scan (c : Str) (pos : Nat) :
    pos ≤ (get_new_log_lines (some c) pos).2 ∧
    (pos ≤ c.length →
      joinWithChar '\n' (get_new_log_lines (some c) pos).1 = c.drop pos ∧
      (get_new_log_lines (some c) pos).2 = c.length) ∧
    (c.length < pos → get_new_log_lines (some c) pos = ([], pos)) := by
  simp only [get_new_log_lines]
  by_cases h : pos ≤ c.length
  · rw [if_pos h]
    exact ⟨h, fun _ => ⟨joinWithChar_splitOnChar '\n' (c.drop pos), rfl⟩,
           fun h' => absurd h (by omega)⟩
  · rw [if_neg h]
    exact ⟨Nat.le_refl pos, fun h' => absurd h' h, fun _ => rfl⟩

theorem C3_witness :
    joinWithChar '\n' (get_new_log_lines (some ("ab\nc".toList)) 1).1 = "b\nc".toList ∧
    get_new_log_lines (some ("ab".toList)) 5 = ([], 5) := by
  constructor
  · exact ((C3_amended_scan ("ab\nc".toList) 1).2.1 (by decide)).1.trans (by decide)
  · exact (C3_amended_scan ("ab".toList) 5).2.2 (by decide)

/-- C4 (amended): the session registry is mutated only by the log-increment
scan — the status-snapshot phase of a poll cycle never touches it (so a
snapshot-derived disconnect does not remove the entry) — and an explicit
logout signal for a key does remove that key's registry entry. -/
theorem C4_amended_registry_removal :
    (∀ (st : ParserState) (lf sf : Option Str),
      (process_logs st lf sf).2.active_sessions
        = (scanLogLines st.active_sessions (get_new_log_lines lf st.log_last_position).1).2) ∧
    (∀ (s : List (Str × Str)) (line u sid ip : Str) (p : Nat),
      detect_logout_from_log line = some (u, sid, ip, p) →
      dictContains (scanLogLines s [line]).2 sid = false) := by
  constructor
  · intro st lf sf
    unfold process_logs
    cases sf with
    | none => rfl
    | some content =>
      cases hp : parse_status_log st.last_clients content with
      | error e => simp [hp]
      | ok r => obtain ⟨evs, cur⟩ := r; simp [hp]
  · intro s line u sid ip p hd
    simp only [scanLogLines, hd]
    exact dictContains_dictRemove_self _ sid

theorem C4_witness :
    (process_logs exState9 none (some [])).2.active_sessions
      = (scanLogLines exState9.active_sessions (get_new_log_lines none 0).1).2 ∧
    dictContains (scanLogLines [] [exLogoutLog]).2 exKey = false := by
  constructor
  · exact C4_amended_registry_removal.1 exState9 none (some [])
  · exact C4_amended_registry_removal.2 [] exLogoutLog ("alice".toList) exKey
      ("10.0.0.5".toList) 5000 (by decide)

/-! ### `stepView` and `parseLines` lemmas -/

theorem lineKey_of_stepView {last : List Str} {line : Str}
    {evs : List ConnectionEvent} {k? : Option Str}
    (h : stepView last line = .ok (evs, k?)) : lineKey line = k? := by
  unfold stepView at h
  unfold lineKey
  cases hr : lineRecord line with
  | error e => rw [hr] at h; cases h
  | ok r =>
    rw [hr] at h
    cases r with
    | none =>
      simp only [Except.ok.injEq, Prod.mk.injEq] at h
      exact h.2
    | some q =>
      obtain ⟨ip, port, u, va, br, bs⟩ := q
      simp only [Except.ok.injEq, Prod.mk.injEq] at h
      exact h.2

theorem stepView_error_any {last last' : List Str} {line : Str}
    (h : stepView last line = .error ()) : stepView last' line = .error () := by
  unfold stepView at h ⊢
  cases hr : lineRecord line with
  | error e => rfl
  | ok r =>
    rw [hr] at h
    cases r with
    | none => cases h
    | some q => obtain ⟨ip, port, u, va, br, bs⟩ := q; cases h

theorem stepView_ok_events {last : List Str} {line : Str}
    {evsv : List ConnectionEvent} {k? : Option Str}
    (h : stepView last line = .ok (evsv, k?)) :
    (evsv = [] ∧ k? = none) ∨
    ∃ (ip : Str) (port : Nat) (u : Option Str) (va : Str) (br bs : Nat),
      k? = some (sessionKey ip port) ∧
      evsv = (if sessionKey ip port ∈ last then []
              else [mkStatusEvent connectT ip port u va br bs]) ++
             [mkStatusEvent authT ip port u va br bs] := by
  unfold stepView at h
  cases hr : lineRecord line with
  | error e => rw [hr] at h; cases h
  | ok r =>
    rw [hr] at h
    cases r with
    | none => cases h; exact Or.inl ⟨rfl, rfl⟩
    | some q =>
      obtain ⟨ip, port, u, va, br, bs⟩ := q
      cases h
      exact Or.inr ⟨ip, port, u, va, br, bs, rfl, rfl⟩

theorem keyOf_mkStatusEvent (t ip : Str) (port : Nat) (u : Option Str)
    (va : Str) (br bs : Nat) :
    keyOf (mkStatusEvent t ip port u va br bs) = sessionKey ip port := rfl

theorem addToSet_mem {s : List Str} {k k' : Str} :
    k ∈ addToSet s k' ↔ k ∈ s ∨ k = k' := by
  unfold addToSet
  by_cases h : k' ∈ s
  · rw [if_pos h]
    constructor
    · exact Or.inl
    · rintro (hk | rfl)
      · exact hk
      · exact h
  · rw [if_neg h]
    simp [List.mem_append]

theorem stepStatusLine_ok {last cur : List Str} {line : Str}
    {evs1 : List ConnectionEvent} {cur1 : List Str}
    (h : stepStatusLine last cur line = .ok (evs1, cur1)) :
    ∃ k?, stepView last line = .ok (evs1, k?) ∧
      cur1 = (match k? with | none => cur | some k => addToSet cur k) := by
  unfold stepStatusLine at h
  cases hv : stepView last line with
  | error e => rw [hv] at h; cases h
  | ok rv =>
    obtain ⟨evsv, k?⟩ := rv
    rw [hv] at h
    cases k? with
    | none => cases h; exact ⟨none, rfl, rfl⟩
    | some key => cases h; exact ⟨some key, rfl, rfl⟩

theorem parseLines_cons_ok {last cur : List Str} {line : Str} {rest : List Str}
    {evs : List ConnectionEvent} {cur' : List Str}
    (h : parseLines last cur (line :: rest) = .ok (evs, cur')) :
    ∃ evs1 cur1 evs2,
      stepStatusLine last cur line = .ok (evs1, cur1) ∧
      parseLines last cur1 rest = .ok (evs2, cur') ∧
      evs = evs1 ++ evs2 := by
  simp only [parseLines] at h
  cases hs : stepStatusLine last cur line with
  | error e => rw [hs] at h; cases h
  | ok r =>
    obtain ⟨evs1, cur1⟩ := r
    rw [hs] at h
    have h2 : (match parseLines last cur1 rest with
               | Except.error _ => (Except.error () : Except Unit (List ConnectionEvent × List Str))
               | Except.ok (evs2, cur2) => Except.ok (evs1 ++ evs2, cur2))
        = Except.ok (evs, cur') := h
    clear h
    revert h2
    cases hp : parseLines last cur1 rest with
    | error e => intro h2; cases h2
    | ok r2 =>
      obtain ⟨evs2, cur2⟩ := r2
      intro h2
      cases h2
      exact ⟨evs1, cur1, evs2, rfl, hp, rfl⟩

theorem parseLines_nil_ok {last cur : List Str}
    {evs : List ConnectionEvent} {cur' : List Str}
    (h : parseLines last cur [] = .ok (evs, cur')) : evs = [] ∧ cur' = cur := by
  simp only [parseLines] at h
  cases h
  exact ⟨rfl, rfl⟩

theorem parseLines_sub : ∀ (ls : List Str) (last cur : List Str)
    (evs : List ConnectionEvent) (cur' : List Str),
    parseLines last cur ls = .ok (evs, cur') → ∀ k ∈ cur, k ∈ cur'
  | [], last, cur, evs, cur' => by
    intro h k hk
    rw [(parseLines_nil_ok h).2]
    exact hk
  | line :: rest, last, cur, evs, cur' => by
    intro h k hk
    obtain ⟨evs1, cur1, evs2, hs, hp, rfl⟩ := parseLines_cons_ok h
    obtain ⟨k?, hv, hcur1⟩ := stepStatusLine_ok hs
    refine parseLines_sub rest last cur1 evs2 cur' hp k ?_
    cases k? with
    | none => rw [hcur1]; exact hk
    | some key => rw [hcur1]; exact addToSet_mem.mpr (Or.inl hk)

theorem parseLines_mem_current : ∀ (ls : List Str) (last cur : List Str)
    (evs : List ConnectionEvent) (cur' : List Str),
    parseLines last cur ls = .ok (evs, cur') →
    ∀ k, k ∈ cur' ↔ (k ∈ cur ∨ k ∈ ls.filterMap lineKey)
  | [], last, cur, evs, cur' => by
    intro h k
    rw [(parseLines_nil_ok h).2]
    simp
  | line :: rest, last, cur, evs, cur' => by
    intro h k
    obtain ⟨evs1, cur1, evs2, hs, hp, rfl⟩ := parseLines_cons_ok h
    obtain ⟨k?, hv, hcur1⟩ := stepStatusLine_ok hs
    have ih := parseLines_mem_current rest last cur1 evs2 cur' hp k
    have hlk := lineKey_of_stepView hv
    cases k? with
    | none =>
      rw [List.filterMap_cons, hlk]
      rw [hcur1] at ih
      exact ih
    | some key =>
      rw [List.filterMap_cons, hlk]
      rw [hcur1] at ih
      rw [ih]
      simp only [addToSet_mem, List.mem_cons]
      tauto

theorem connectT_ne_authT : connectT ≠ authT := by decide

theorem authT_ne_connectT : authT ≠ connectT := by decide

theorem disconnectT_ne_connectT : disconnectT ≠ connectT := by decide

theorem parseLines_events_shape : ∀ (ls : List Str) (last cur : List Str)
    (evs : List ConnectionEvent) (cur' : List Str),
    parseLines last cur ls = .ok (evs, cur') →
    ∀ e ∈ evs, e.event_type = authT ∨
      (e.event_type = connectT ∧ keyOf e ∉ last ∧ keyOf e ∈ ls.filterMap lineKey)
  | [], last, cur, evs, cur' => by
    intro h e he
    rw [(parseLines_nil_ok h).1] at he
    cases he
  | line :: rest, last, cur, evs, cur' => by
    intro h e he
    obtain ⟨evs1, cur1, evs2, hs, hp, rfl⟩ := parseLines_cons_ok h
    obtain ⟨k?, hv, hcur1⟩ := stepStatusLine_ok hs
    rcases List.mem_append.mp he with he1 | he2
    · rcases stepView_ok_events hv with ⟨hnil, _⟩ | ⟨ip, port, u, va, br, bs, hk, hevs⟩
      · rw [hnil] at he1; cases he1
      · rw [hevs] at he1
        rcases List.mem_append.mp he1 with hc | ha
        · by_cases hin : sessionKey ip port ∈ last
          · rw [if_pos hin] at hc; cases hc
          · rw [if_neg hin] at hc
            rcases List.mem_singleton.mp hc with rfl
            right
            refine ⟨rfl, ?_, ?_⟩
            · rw [keyOf_mkStatusEvent]; exact hin
            · rw [keyOf_mkStatusEvent]
              simp [List.filterMap_cons, lineKey_of_stepView hv, hk]
        · rcases List.mem_singleton.mp ha with rfl
          left; rfl
    · rcases parseLines_events_shape rest last cur1 evs2 cur' hp e he2 with h1 | ⟨h1, h2, h3⟩
      · exact Or.inl h1
      · right
        refine ⟨h1, h2, ?_⟩
        rw [List.filterMap_cons]
        cases hlk : lineKey line with
        | none => exact h3
        | some b => exact List.mem_cons_of_mem _ h3

theorem parseLines_auth_exists : ∀ (ls : List Str) (last cur : List Str)
    (evs : List ConnectionEvent) (cur' : List Str),
    parseLines last cur ls = .ok (evs, cur') → ∀ K, K ∈ cur' → K ∉ cur →
    ∃ e ∈ evs, e.event_type = authT ∧ keyOf e = K
  | [], last, cur, evs, cur' => by
    intro h K hK hKc
    rw [(parseLines_nil_ok h).2] at hK
    exact absurd hK hKc
  | line :: rest, last, cur, evs, cur' => by
    intro h K hK hKc
    obtain ⟨evs1, cur1, evs2, hs, hp, rfl⟩ := parseLines_cons_ok h
    obtain ⟨k?, hv, hcur1⟩ := stepStatusLine_ok hs
    by_cases hK1 : K ∈ cur1
    · cases k? with
      | none => rw [hcur1] at hK1; exact absurd hK1 hKc
      | some key =>
        rw [hcur1] at hK1
        rcases addToSet_mem.mp hK1 with hc | hKey
        · exact absurd hc hKc
        · rcases stepView_ok_events hv with ⟨_, hknone⟩ | ⟨ip, port, u, va, br, bs, hk, hevs⟩
          · cases hknone
          · injection hk with hk
            refine ⟨mkStatusEvent authT ip port u va br bs,
              List.mem_append_left _ ?_, rfl, ?_⟩
            · rw [hevs]
              exact List.mem_append_right _ (List.mem_singleton.mpr rfl)
            · rw [keyOf_mkStatusEvent, ← hk, ← hKey]
    · obtain ⟨e, he, ht, hke⟩ :=
        parseLines_auth_exists rest last cur1 evs2 cur' hp K hK hK1
      exact ⟨e, List.mem_append_right _ he, ht, hke⟩

/-! ### Counting lemmas -/

theorem countKey_nil (t K : Str) : countKey t K [] = 0 := rfl

theorem countKey_cons (t K : Str) (e : ConnectionEvent) (evs : List ConnectionEvent) :
    countKey t K (e :: evs)
      = (if e.event_type = t ∧ keyOf e = K then 1 else 0) + countKey t K evs := by
  unfold countKey
  rw [List.filter_cons]
  by_cases h : (e.event_type = t ∧ keyOf e = K)
  · rw [if_pos h, if_pos (by simpa using h)]
    simp [Nat.add_comm]
  · rw [if_neg h, if_neg (by simpa using h)]
    simp

theorem countKey_append (t K : Str) (a b : List ConnectionEvent) :
    countKey t K (a ++ b) = countKey t K a + countKey t K b := by
  unfold countKey
  rw [List.filter_append, List.length_append]

theorem parseLines_count_auth : ∀ (ls : List Str) (last cur : List Str)
    (evs : List ConnectionEvent) (cur' : List Str),
    parseLines last cur ls = .ok (evs, cur') →
    ∀ K, countKey authT K evs
      = ((ls.filterMap lineKey).filter (fun k => decide (k = K))).length
  | [], last, cur, evs, cur' => by
    intro h K
    rw [(parseLines_nil_ok h).1]
    rfl
  | line :: rest, last, cur, evs, cur' => by
    intro h K
    obtain ⟨evs1, cur1, evs2, hs, hp, rfl⟩ := parseLines_cons_ok h
    obtain ⟨k?, hv, hcur1⟩ := stepStatusLine_ok hs
    have ih := parseLines_count_auth rest last cur1 evs2 cur' hp K
    rw [countKey_append, List.filterMap_cons, lineKey_of_stepView hv]
    rcases stepView_ok_events hv with ⟨hnil, hknone⟩ | ⟨ip, port, u, va, br, bs, hk, hevs⟩
    · rw [hnil, hknone, countKey_nil, ih]
      simp
    · rw [hevs, hk]
      rw [countKey_append]
      have hcon : countKey authT K (if sessionKey ip port ∈ last then []
          else [mkStatusEvent connectT ip port u va br bs]) = 0 := by
        by_cases hin : sessionKey ip port ∈ last
        · rw [if_pos hin]; rfl
        · rw [if_neg hin, countKey_cons, countKey_nil]
          simp [mkStatusEvent, connectT_ne_authT]
      rw [hcon, countKey_cons, countKey_nil, keyOf_mkStatusEvent]
      by_cases hkK : sessionKey ip port = K
      · have h1 : ((mkStatusEvent authT ip port u va br bs).event_type = authT ∧
            sessionKey ip port = K) := ⟨rfl, hkK⟩
        rw [if_pos h1, List.filter_cons,
          if_pos (show decide (sessionKey ip port = K) = true by simpa using hkK)]
        simp [ih, Nat.add_comm]
      · have h1 : ¬((mkStatusEvent authT ip port u va br bs).event_type = authT ∧
            sessionKey ip port = K) := fun hh => hkK hh.2
        rw [if_neg h1, List.filter_cons,
          if_neg (show ¬ decide (sessionKey ip port = K) = true by simpa using hkK)]
        simp [ih]

/-! ### Chain lemmas (per-record event ordering) -/

theorem ConnAuthChain_append {a b : List ConnectionEvent} :
    ConnAuthChain a → ConnAuthChain b → ConnAuthChain (a ++ b) := by
  intro ha hb
  induction ha with
  | nil => exact hb
  | auth e rest he hr ih => exact .auth e _ he ih
  | pair c a' rest hc ha' hk hr ih => exact .pair c a' _ hc ha' hk ih

theorem parseLines_chain : ∀ (ls : List Str) (last cur : List Str)
    (evs : List ConnectionEvent) (cur' : List Str),
    parseLines last cur ls = .ok (evs, cur') → ConnAuthChain evs
  | [], last, cur, evs, cur' => by
    intro h
    rw [(parseLines_nil_ok h).1]
    exact .nil
  | line :: rest, last, cur, evs, cur' => by
    intro h
    obtain ⟨evs1, cur1, evs2, hs, hp, rfl⟩ := parseLines_cons_ok h
    obtain ⟨k?, hv, hcur1⟩ := stepStatusLine_ok hs
    have ih := parseLines_chain rest last cur1 evs2 cur' hp
    refine ConnAuthChain_append ?_ ih
    rcases stepView_ok_events hv with ⟨hnil, _⟩ | ⟨ip, port, u, va, br, bs, hk, hevs⟩
    · rw [hnil]; exact .nil
    · rw [hevs]
      by_cases hin : sessionKey ip port ∈ last
      · rw [if_pos hin]
        exact .auth _ _ rfl .nil
      · rw [if_neg hin]
        exact .pair _ _ _ rfl rfl rfl .nil

/-! ### Snapshot-disconnect lemmas -/

theorem mkSnapshotDisconnect_ok {g : Str} {e : ConnectionEvent}
    (h : mkSnapshotDisconnect g = .ok e) :
    e.event_type = disconnectT ∧ e.username = none ∧ e.virtual_ip = none ∧
      e.bytes_received = none ∧ e.bytes_sent = none := by
  unfold mkSnapshotDisconnect at h
  by_cases hc : ':' ∈ g
  · rw [if_pos hc] at h
    cases hp : pyInt (rsplitColon g).2 with
    | some p => rw [hp] at h; cases h; exact ⟨rfl, rfl, rfl, rfl, rfl⟩
    | none => rw [hp] at h; cases h
  · rw [if_neg hc] at h
    cases h
    exact ⟨rfl, rfl, rfl, rfl, rfl⟩

theorem isNormalKey_keyOf {g : Str} {e : ConnectionEvent}
    (hn : isNormalKey g = true) (h : mkSnapshotDisconnect g = .ok e) :
    keyOf e = g := by
  unfold isNormalKey at hn
  rw [h] at hn
  simpa using hn

theorem mapSnapshotDisconnects_cons_ok {g : Str} {gs : List Str}
    {ds : List ConnectionEvent}
    (h : mapSnapshotDisconnects (g :: gs) = .ok ds) :
    ∃ e ds', mkSnapshotDisconnect g = .ok e ∧
      mapSnapshotDisconnects gs = .ok ds' ∧ ds = e :: ds' := by
  simp only [mapSnapshotDisconnects] at h
  cases hg : mkSnapshotDisconnect g with
  | error e => rw [hg] at h; cases h
  | ok e =>
    rw [hg] at h
    have h2 : (match mapSnapshotDisconnects gs with
               | Except.error _ => (Except.error () : Except Unit (List ConnectionEvent))
               | Except.ok es => Except.ok (e :: es)) = Except.ok ds := h
    clear h
    revert h2
    cases hd : mapSnapshotDisconnects gs with
    | error e2 => intro h2; cases h2
    | ok ds' =>
      intro h2
      cases h2
      exact ⟨e, ds', rfl, rfl, rfl⟩

theorem mapSnapshotDisconnects_mem : ∀ (gs : List Str) (ds : List ConnectionEvent),
    mapSnapshotDisconnects gs = .ok ds →
    ∀ e ∈ ds, ∃ g ∈ gs, mkSnapshotDisconnect g = .ok e
  | [], ds => by
    intro h e he
    cases h
    cases he
  | g :: gs, ds => by
    intro h e he
    obtain ⟨e1, ds', hg, hd, rfl⟩ := mapSnapshotDisconnects_cons_ok h
    rcases List.mem_cons.mp he with rfl | he'
    · exact ⟨g, by simp, hg⟩
    · obtain ⟨g', hg', hok⟩ := mapSnapshotDisconnects_mem gs ds' hd e he'
      exact ⟨g', List.mem_cons_of_mem _ hg', hok⟩

/-! ### `parse_status_log` decomposition -/

theorem parse_status_log_ok {last : List Str} {content : Str}
    {evs : List ConnectionEvent} {cur : List Str}
    (h : parse_status_log last content = .ok (evs, cur)) :
    ∃ recEvs discs,
      parseLines last [] (splitOnChar '\n' content) = .ok (recEvs, cur) ∧
      mapSnapshotDisconnects (last.filter (fun g => !(decide (g ∈ cur)))) = .ok discs ∧
      evs = recEvs ++ discs := by
  unfold parse_status_log at h
  cases hp : parseLines last [] (splitOnChar '\n' content) with
  | error e => rw [hp] at h; cases h
  | ok r =>
    obtain ⟨recEvs, cur0⟩ := r
    rw [hp] at h
    have h2 : (match mapSnapshotDisconnects (List.filter (fun g => !(decide (g ∈ cur0))) last) with
               | Except.error _ => (Except.error () : Except Unit (List ConnectionEvent × List Str))
               | Except.ok discs => Except.ok (recEvs ++ discs, cur0)) = Except.ok (evs, cur) := h
    clear h
    revert h2
    cases hd : mapSnapshotDisconnects (List.filter (fun g => !(decide (g ∈ cur0))) last) with
    | error e => intro h2; cases h2
    | ok discs =>
      intro h2
      cases h2
      exact ⟨recEvs, discs, rfl, hd, rfl⟩

/-! ### Enrichment lemmas -/

theorem enrichOne_type (s : List (Str × Str)) (e : ConnectionEvent) :
    (enrichOne s e).event_type = e.event_type := by
  unfold enrichOne
  cases dictGet s (keyOf e) <;> rfl

theorem enrichOne_key (s : List (Str × Str)) (e : ConnectionEvent) :
    keyOf (enrichOne s e) = keyOf e := by
  unfold enrichOne
  cases dictGet s (keyOf e) <;> rfl

theorem enrichOne_of_get_none {s : List (Str × Str)} {e : ConnectionEvent}
    (h : dictGet s (keyOf e) = none) : enrichOne s e = e := by
  unfold enrichOne
  rw [h]

theorem enrichOne_of_get_some {s : List (Str × Str)} {e : ConnectionEvent} {u : Str}
    (h : dictGet s (keyOf e) = some u) :
    enrichOne s e = { e with username := some u } := by
  unfold enrichOne
  rw [h]

theorem enrichFilter_append (s : List (Str × Str)) :
    ∀ a b : List ConnectionEvent,
    enrichFilter s (a ++ b) = enrichFilter s a ++ enrichFilter s b
  | [], b => rfl
  | e :: a, b => by
    simp only [List.cons_append, enrichFilter]
    by_cases h : ((enrichOne s e).event_type = connectT ∧ dictContains s (keyOf e) = true)
    · rw [if_pos h, if_pos h]
      exact enrichFilter_append s a b
    · rw [if_neg h, if_neg h, List.cons_append]
      exact congrArg (fun l => enrichOne s e :: l) (enrichFilter_append s a b)

theorem enrichFilter_mem : ∀ (s : List (Str × Str)) (evs : List ConnectionEvent)
    (e' : ConnectionEvent), e' ∈ enrichFilter s evs →
    ∃ e ∈ evs, e' = enrichOne s e ∧
      (e'.event_type = connectT → dictContains s (keyOf e) = false)
  | s, [], e' => by
    intro h
    cases h
  | s, e :: evs, e' => by
    intro h
    simp only [enrichFilter] at h
    by_cases hc : ((enrichOne s e).event_type = connectT ∧ dictContains s (keyOf e) = true)
    · rw [if_pos hc] at h
      obtain ⟨e0, he0, heq, himp⟩ := enrichFilter_mem s evs e' h
      exact ⟨e0, List.mem_cons_of_mem _ he0, heq, himp⟩
    · rw [if_neg hc] at h
      rcases List.mem_cons.mp h with rfl | h'
      · refine ⟨e, by simp, rfl, ?_⟩
        intro ht
        cases hb : dictContains s (keyOf e) with
        | false => rfl
        | true => exact absurd ⟨ht, hb⟩ hc
      · obtain ⟨e0, he0, heq, himp⟩ := enrichFilter_mem s evs e' h'
        exact ⟨e0, List.mem_cons_of_mem _ he0, heq, himp⟩

theorem enrichFilter_nonconnect_map : ∀ (s : List (Str × Str))
    (evs : List ConnectionEvent),
    (∀ e ∈ evs, ¬ e.event_type = connectT) →
    enrichFilter s evs = evs.map (enrichOne s)
  | s, [] => by intro _; rfl
  | s, e :: evs => by
    intro h
    simp only [enrichFilter, List.map_cons]
    rw [if_neg (fun hc => h e (by simp) (by rw [← enrichOne_type s e]; exact hc.1))]
    rw [enrichFilter_nonconnect_map s evs (fun e' he' => h e' (List.mem_cons_of_mem _ he'))]

theorem countKey_map_enrichOne (s : List (Str × Str)) (t K : Str) :
    ∀ evs : List ConnectionEvent,
    countKey t K (evs.map (enrichOne s)) = countKey t K evs
  | [] => rfl
  | e :: evs => by
    rw [List.map_cons, countKey_cons, countKey_cons, enrichOne_type, enrichOne_key]
    rw [countKey_map_enrichOne s t K evs]

theorem enrichFilter_chain {s : List (Str × Str)} {evs : List ConnectionEvent}
    (h : ConnAuthChain evs) : ConnAuthChain (enrichFilter s evs) := by
  induction h with
  | nil => exact .nil
  | auth e rest he hr ih =>
    simp only [enrichFilter]
    rw [if_neg (fun hc => authT_ne_connectT (by rw [← he, ← enrichOne_type s e]; exact hc.1))]
    exact .auth _ _ (by rw [enrichOne_type]; exact he) ih
  | pair c a rest hc ha hk hr ih =>
    have hconda : ¬((enrichOne s a).event_type = connectT ∧ dictContains s (keyOf a) = true) :=
      fun hcc => authT_ne_connectT (by rw [← ha, ← enrichOne_type s a]; exact hcc.1)
    simp only [enrichFilter]
    by_cases hcond : ((enrichOne s c).event_type = connectT ∧ dictContains s (keyOf c) = true)
    · rw [if_pos hcond, if_neg hconda]
      exact .auth _ _ (by rw [enrichOne_type]; exact ha) ih
    · rw [if_neg hcond, if_neg hconda]
      exact .pair _ _ _ (by rw [enrichOne_type]; exact hc)
        (by rw [enrichOne_type]; exact ha)
        (by rw [enrichOne_key, enrichOne_key]; exact hk) ih

/-! ### `process_logs` decomposition -/

theorem process_logs_some_ok {st : ParserState} {lf : Option Str} {content : Str}
    {sevs : List ConnectionEvent} {cur : List Str}
    (h : parse_status_log st.last_clients content = .ok (sevs, cur)) :
    process_logs st lf (some content)
      = ((scanLogLines st.active_sessions (get_new_log_lines lf st.log_last_position).1).1
          ++ enrichFilter
              (scanLogLines st.active_sessions (get_new_log_lines lf st.log_last_position).1).2
              sevs,
         { last_clients := cur,
           active_sessions :=
             (scanLogLines st.active_sessions (get_new_log_lines lf st.log_last_position).1).2,
           log_last_position := (get_new_log_lines lf st.log_last_position).2 }) := by
  simp only [process_logs]
  rw [h]

/-! ### `lineRecord` expansion -/

theorem lineRecord_eq (line : Str) :
    lineRecord line =
      (if ("CLIENT_LIST,".toList).isPrefixOf line then
        (if 8 ≤ (splitOnChar ',' line).length then
          (if ':' ∈ (((splitOnChar ',' line)[2]?).getD []) then
            (match pyInt (rsplitColon (((splitOnChar ',' line)[2]?).getD [])).2 with
             | some p => .ok (some ((rsplitColon (((splitOnChar ',' line)[2]?).getD [])).1, p,
                 (if 9 < (splitOnChar ',' line).length then (splitOnChar ',' line)[9]? else none),
                 ((splitOnChar ',' line)[3]?).getD [],
                 (if pyIsDigit (((splitOnChar ',' line)[5]?).getD [])
                  then digitsVal (((splitOnChar ',' line)[5]?).getD []) else 0),
                 (if pyIsDigit (((splitOnChar ',' line)[6]?).getD [])
                  then digitsVal (((splitOnChar ',' line)[6]?).getD []) else 0)))
             | none => .error ())
          else .ok (some ((((splitOnChar ',' line)[2]?).getD []), 0,
                 (if 9 < (splitOnChar ',' line).length then (splitOnChar ',' line)[9]? else none),
                 ((splitOnChar ',' line)[3]?).getD [],
                 (if pyIsDigit (((splitOnChar ',' line)[5]?).getD [])
                  then digitsVal (((splitOnChar ',' line)[5]?).getD []) else 0),
                 (if pyIsDigit (((splitOnChar ',' line)[6]?).getD [])
                  then digitsVal (((splitOnChar ',' line)[6]?).getD []) else 0))))
        else .ok none)
      else .ok none) := rfl

theorem stepStatusLine_malformed {last cur : List Str} {line : Str}
    (hpre : ("CLIENT_LIST,".toList).isPrefixOf line = true)
    (hlen : (splitOnChar ',' line).length < 8) :
    stepStatusLine last cur line = .ok ([], cur) := by
  have hr : lineRecord line = .ok none := by
    rw [lineRecord_eq, if_pos hpre, if_neg (show ¬ 8 ≤ (splitOnChar ',' line).length by omega)]
  unfold stepStatusLine stepView
  rw [hr]

theorem parseLines_skip_malformed : ∀ (ls1 : List Str) (last cur : List Str)
    (m : Str) (ls2 : List Str),
    ("CLIENT_LIST,".toList).isPrefixOf m = true →
    (splitOnChar ',' m).length < 8 →
    parseLines last cur (ls1 ++ m :: ls2) = parseLines last cur (ls1 ++ ls2)
  | [], last, cur, m, ls2 => by
    intro h1 h2
    simp only [List.nil_append]
    simp only [parseLines]
    rw [stepStatusLine_malformed h1 h2]
    have h3 : (match parseLines last cur ls2 with
               | Except.error _ => (Except.error () : Except Unit (List ConnectionEvent × List Str))
               | Except.ok (evs2, cur2) => Except.ok ([] ++ evs2, cur2))
        = parseLines last cur ls2 := by
      cases hp : parseLines last cur ls2 with
      | error e => rfl
      | ok r => obtain ⟨evs2, cur2⟩ := r; simp
    exact h3
  | l :: ls1, last, cur, m, ls2 => by
    intro h1 h2
    simp only [List.cons_append, parseLines]
    cases hs : stepStatusLine last cur l with
    | error e => rfl
    | ok r =>
      obtain ⟨evs1, cur1⟩ := r
      have ih := parseLines_skip_malformed ls1 last cur1 m ls2 h1 h2
      show (match parseLines last cur1 (ls1 ++ m :: ls2) with
            | Except.error _ => (Except.error () : Except Unit (List ConnectionEvent × List Str))
            | Except.ok (evs2, cur2) => Except.ok (evs1 ++ evs2, cur2))
         = (match parseLines last cur1 (ls1 ++ ls2) with
            | Except.error _ => (Except.error () : Except Unit (List ConnectionEvent × List Str))
            | Except.ok (evs2, cur2) => Except.ok (evs1 ++ evs2, cur2))
      rw [ih]

/-- C9: a snapshot record line carrying the record marker but fewer than 8
comma-separated fields contributes nothing: the whole parse of a snapshot
containing it (no raise, zero events from that line) equals the parse of
the same snapshot with the line removed, so every other record is
processed normally. -/
theorem C9_malformed_record_skipped (last : List Str) (content content' : Str)
    (ls1 ls2 : List Str) (m : Str)
    (hsplit : splitOnChar '\n' content = ls1 ++ m :: ls2)
    (hsplit' : splitOnChar '\n' content' = ls1 ++ ls2)
    (hpre : ("CLIENT_LIST,".toList).isPrefixOf m = true)
    (hlen : (splitOnChar ',' m).length < 8) :
    parse_status_log last content = parse_status_log last content' := by
  unfold parse_status_log
  rw [hsplit, hsplit', parseLines_skip_malformed ls1 last [] m ls2 hpre hlen]

theorem C9_witness :
    parse_status_log []
        (("CLIENT_LIST,short,1.2.3.4\nCLIENT_LIST,a,1.1.1.1:1,10.8.0.1,,1,2,t").toList)
      = parse_status_log [] (("CLIENT_LIST,a,1.1.1.1:1,10.8.0.1,,1,2,t").toList) :=
  C9_malformed_record_skipped [] _ _ []
    ["CLIENT_LIST,a,1.1.1.1:1,10.8.0.1,,1,2,t".toList]
    ("CLIENT_LIST,short,1.2.3.4".toList)
    (by decide) (by decide) (by decide) (by decide)

/-- C5 (amended): byte counters that fail numeric parsing default to 0 and
the record is still processed, and a real address with no port suffix
defaults `client_port` to 0, which still participates in the session key —
but a real address WITH a non-numeric port suffix is not defaulted: `int()`
raises and the snapshot parse aborts (see the counterexample). -/
theorem C5_amended_defaults :
    (∀ (line ip : Str) (port : Nat) (u : Option Str) (va : Str) (br bs : Nat),
      lineRecord line = .ok (some (ip, port, u, va, br, bs)) →
      (pyIsDigit (((splitOnChar ',' line)[5]?).getD []) = false → br = 0) ∧
      (pyIsDigit (((splitOnChar ',' line)[6]?).getD []) = false → bs = 0)) ∧
    (∀ (line : Str) (last : List Str),
      ("CLIENT_LIST,".toList).isPrefixOf line = true →
      8 ≤ (splitOnChar ',' line).length →
      ':' ∉ (((splitOnChar ',' line)[2]?).getD []) →
      ∃ evs, stepView last line
          = .ok (evs, some (sessionKey (((splitOnChar ',' line)[2]?).getD []) 0)) ∧
        evs ≠ [] ∧
        ∀ e ∈ evs, e.client_port = 0 ∧
          e.client_ip = (((splitOnChar ',' line)[2]?).getD [])) := by
  constructor
  · intro line ip port u va br bs h
    rw [lineRecord_eq] at h
    by_cases hpre : ("CLIENT_LIST,".toList).isPrefixOf line = true
    · rw [if_pos hpre] at h
      by_cases h8 : 8 ≤ (splitOnChar ',' line).length
      · rw [if_pos h8] at h
        by_cases hcolon : ':' ∈ (((splitOnChar ',' line)[2]?).getD [])
        · rw [if_pos hcolon] at h
          cases hpi : pyInt (rsplitColon (((splitOnChar ',' line)[2]?).getD [])).2 with
          | none => rw [hpi] at h; cases h
          | some p =>
            rw [hpi] at h
            simp only [Except.ok.injEq, Option.some.injEq, Prod.mk.injEq] at h
            obtain ⟨h1, h2, h3, h4, h5', h6'⟩ := h
            constructor
            · intro hd5
              rw [← h5', if_neg (by simp [hd5])]
            · intro hd6
              rw [← h6', if_neg (by simp [hd6])]
        · rw [if_neg hcolon] at h
          simp only [Except.ok.injEq, Option.some.injEq, Prod.mk.injEq] at h
          obtain ⟨h1, h2, h3, h4, h5', h6'⟩ := h
          constructor
          · intro hd5
            rw [← h5', if_neg (by simp [hd5])]
          · intro hd6
            rw [← h6', if_neg (by simp [hd6])]
      · rw [if_neg h8] at h
        simp at h
    · rw [if_neg hpre] at h
      simp at h
  · intro line last hpre h8 hcolon
    have hr : lineRecord line = .ok (some ((((splitOnChar ',' line)[2]?).getD []), 0,
        (if 9 < (splitOnChar ',' line).length then (splitOnChar ',' line)[9]? else none),
        ((splitOnChar ',' line)[3]?).getD [],
        (if pyIsDigit (((splitOnChar ',' line)[5]?).getD [])
         then digitsVal (((splitOnChar ',' line)[5]?).getD []) else 0),
        (if pyIsDigit (((splitOnChar ',' line)[6]?).getD [])
         then digitsVal (((splitOnChar ',' line)[6]?).getD []) else 0))) := by
      rw [lineRecord_eq, if_pos hpre, if_pos h8, if_neg hcolon]
    have hsv : stepView last line = .ok (
        (if sessionKey (((splitOnChar ',' line)[2]?).getD []) 0 ∈ last then []
         else [mkStatusEvent connectT (((splitOnChar ',' line)[2]?).getD []) 0
             (if 9 < (splitOnChar ',' line).length then (splitOnChar ',' line)[9]? else none)
             (((splitOnChar ',' line)[3]?).getD [])
             (if pyIsDigit (((splitOnChar ',' line)[5]?).getD [])
              then digitsVal (((splitOnChar ',' line)[5]?).getD []) else 0)
             (if pyIsDigit (((splitOnChar ',' line)[6]?).getD [])
              then digitsVal (((splitOnChar ',' line)[6]?).getD []) else 0)]) ++
          [mkStatusEvent authT (((splitOnChar ',' line)[2]?).getD []) 0
             (if 9 < (splitOnChar ',' line).length then (splitOnChar ',' line)[9]? else none)
             (((splitOnChar ',' line)[3]?).getD [])
             (if pyIsDigit (((splitOnChar ',' line)[5]?).getD [])
              then digitsVal (((splitOnChar ',' line)[5]?).getD []) else 0)
             (if pyIsDigit (((splitOnChar ',' line)[6]?).getD [])
              then digitsVal (((splitOnChar ',' line)[6]?).getD []) else 0)],
        some (sessionKey (((splitOnChar ',' line)[2]?).getD []) 0)) := by
      unfold stepView
      rw [hr]
    refine ⟨_, hsv, ?_, ?_⟩
    · intro hh
      have := congrArg List.length hh
      simp at this
    · intro e he
      rcases List.mem_append.mp he with hc | ha
      · by_cases hin : sessionKey (((splitOnChar ',' line)[2]?).getD []) 0 ∈ last
        · rw [if_pos hin] at hc; cases hc
        · rw [if_neg hin] at hc
          rcases List.mem_singleton.mp hc with rfl
          exact ⟨rfl, rfl⟩
      · rcases List.mem_singleton.mp ha with rfl
        exact ⟨rfl, rfl⟩

theorem C5_witness :
    ((pyIsDigit ((((splitOnChar ',' ("CLIENT_LIST,bob,10.0.0.1,10.8.0.2,,xx,yy,t".toList))[5]?).getD []))
        = false → (0 : Nat) = 0) ∧ True) ∧
    ∃ evs, stepView [] ("CLIENT_LIST,bob,10.0.0.1,10.8.0.2,,xx,yy,t".toList)
        = .ok (evs, some (sessionKey
            (((splitOnChar ',' ("CLIENT_LIST,bob,10.0.0.1,10.8.0.2,,xx,yy,t".toList))[2]?).getD []) 0)) ∧
      evs ≠ [] ∧
      ∀ e ∈ evs, e.client_port = 0 ∧
        e.client_ip = (((splitOnChar ',' ("CLIENT_LIST,bob,10.0.0.1,10.8.0.2,,xx,yy,t".toList))[2]?).getD []) := by
  constructor
  · exact ⟨(C5_amended_defaults.1 ("CLIENT_LIST,bob,10.0.0.1,10.8.0.2,,xx,yy,t".toList)
      ("10.0.0.1".toList) 0 none ("10.8.0.2".toList) 0 0 (by rfl)).1, trivial⟩
  · exact C5_amended_defaults.2 ("CLIENT_LIST,bob,10.0.0.1,10.8.0.2,,xx,yy,t".toList) []
      (by decide) (by decide) (by decide)

theorem enrichFilter_mem_nonconnect : ∀ (s : List (Str × Str))
    (evs : List ConnectionEvent) (e0 : ConnectionEvent),
    e0 ∈ evs → ¬ e0.event_type = connectT → enrichOne s e0 ∈ enrichFilter s evs
  | s, [], e0 => by intro h _; cases h
  | s, e :: evs, e0 => by
    intro h hnc
    simp only [enrichFilter]
    rcases List.mem_cons.mp h with rfl | h'
    · rw [if_neg (fun hc => hnc (by rw [← enrichOne_type s e0]; exact hc.1))]
      exact List.mem_cons_self _ _
    · by_cases hc : ((enrichOne s e).event_type = connectT ∧ dictContains s (keyOf e) = true)
      · rw [if_pos hc]
        exact enrichFilter_mem_nonconnect s evs e0 h' hnc
      · rw [if_neg hc]
        exact List.mem_cons_of_mem _ (enrichFilter_mem_nonconnect s evs e0 h' hnc)

/-- C2: when a login signal for session key K is scanned from the new log
lines of a cycle (and no logout signal for K follows in the same
increment), and K then appears in that cycle's snapshot for the first time
(K not in the previous client set), the cycle emits no `connect` for K —
every emitted event with key K is an `authenticated` heartbeat carrying the
registry's username for K, at least one such heartbeat is emitted, and the
login itself contributed no event (events for K are only the heartbeats). -/
theorem C2_login_then_snapshot_only_authenticated
    (st : ParserState) (lf : Option Str) (content : Str)
    (sevs : List ConnectionEvent) (cur : List Str) (K : Str)
    (hnorm : ∀ g ∈ st.last_clients, isNormalKey g = true)
    (hlogin : ∃ line ∈ (get_new_log_lines lf st.log_last_position).1, loginKey line = some K)
    (hnologout : ∀ line ∈ (get_new_log_lines lf st.log_last_position).1, logoutKey line ≠ some K)
    (hparse : parse_status_log st.last_clients content = .ok (sevs, cur))
    (hnew : K ∉ st.last_clients)
    (hin : K ∈ cur) :
    (∀ e ∈ (process_logs st lf (some content)).1, keyOf e = K →
        e.event_type = authT ∧
        e.username = dictGet
          (scanLogLines st.active_sessions (get_new_log_lines lf st.log_last_position).1).2 K) ∧
    (∃ e ∈ (process_logs st lf (some content)).1, keyOf e = K ∧ e.event_type = authT) ∧
    (∃ u, dictGet
        (scanLogLines st.active_sessions (get_new_log_lines lf st.log_last_position).1).2 K
      = some u) := by
  have hout := @process_logs_some_ok st lf content sevs cur hparse
  have hcont : dictContains
      (scanLogLines st.active_sessions (get_new_log_lines lf st.log_last_position).1).2 K
      = true :=
    scanLogLines_registers_login _ _ _ hlogin hnologout
  obtain ⟨u, hu⟩ := dictGet_some_of_contains hcont
  obtain ⟨recEvs, discs, hrec, hdiscs, rfl⟩ := parse_status_log_ok hparse
  refine ⟨?_, ?_, ⟨u, hu⟩⟩
  · intro e he hke
    rw [hout] at he
    rcases List.mem_append.mp he with he1 | he2
    · obtain ⟨ht, line, hline, u', sid, ip, p, hdet, hkey, _⟩ :=
        scanLogLines_events _ _ _ he1
      have : logoutKey line = some K := by
        unfold logoutKey
        rw [hdet, ← hkey.symm.trans hke]
      exact absurd this (hnologout line hline)
    · rw [enrichFilter_append] at he2
      rcases List.mem_append.mp he2 with heB | heC
      · obtain ⟨e0, he0, heq, himp⟩ := enrichFilter_mem _ _ _ heB
        have hk0 : keyOf e0 = K := by rw [← hke, heq, enrichOne_key]
        rcases parseLines_events_shape _ _ _ _ _ hrec e0 he0 with hty | ⟨hty, _, _⟩
        · constructor
          · rw [heq, enrichOne_type]
            exact hty
          · rw [heq, enrichOne_of_get_some (by rw [hk0]; exact hu), hu]
        · have ht' : e.event_type = connectT := by
            rw [heq, enrichOne_type]
            exact hty
          have hfalse := himp ht'
          rw [hk0, hcont] at hfalse
          cases hfalse
      · obtain ⟨e0, he0, heq, _⟩ := enrichFilter_mem _ _ _ heC
        obtain ⟨g, hg, hok⟩ := mapSnapshotDisconnects_mem _ _ hdiscs e0 he0
        have hgmem : g ∈ st.last_clients := (List.mem_filter.mp hg).1
        have hgnot : g ∉ cur := by
          have := (List.mem_filter.mp hg).2
          simpa using this
        have hkg : keyOf e0 = g := isNormalKey_keyOf (hnorm g hgmem) hok
        rw [heq, enrichOne_key] at hke
        have hgK : g = K := hkg.symm.trans hke
        rw [← hgK] at hin
        exact absurd hin hgnot
  · obtain ⟨e0, he0, hty, hk0⟩ :=
      parseLines_auth_exists _ _ _ _ _ hrec K hin (by simp)
    refine ⟨enrichOne
      (scanLogLines st.active_sessions (get_new_log_lines lf st.log_last_position).1).2 e0,
      ?_, ?_, ?_⟩
    · rw [hout, enrichFilter_append]
      refine List.mem_append_right _ (List.mem_append_left _ ?_)
      exact enrichFilter_mem_nonconnect _ _ _ he0
        (fun hc => authT_ne_connectT (hty ▸ hc))
    · rw [enrichOne_key]
      exact hk0
    · rw [enrichOne_type]
      exact hty

theorem C2_witness :
    ∃ e ∈ (process_logs initState (some exLoginLog) (some exSnap)).1,
      keyOf e = exKey ∧ e.event_type = authT := by
  have h := C2_login_then_snapshot_only_authenticated initState (some exLoginLog) exSnap
    [{ event_type := connectT, client_ip := "10.0.0.5".toList, client_port := 5000,
       username := none, virtual_ip := some ("10.8.0.4".toList),
       bytes_received := some 100, bytes_sent := some 200 },
     { event_type := authT, client_ip := "10.0.0.5".toList, client_port := 5000,
       username := none, virtual_ip := some ("10.8.0.4".toList),
       bytes_received := some 100, bytes_sent := some 200 }]
    [exKey] exKey
    (by decide)
    ⟨exLoginLog, by decide, by decide⟩
    (by decide)
    (by decide)
    (by decide)
    (by decide)
  exact h.2.1

theorem stepView_any_last {last : List Str} {line : Str}
    {evs : List ConnectionEvent} {k? : Option Str} (last' : List Str)
    (h : stepView last line = .ok (evs, k?)) :
    ∃ evs', stepView last' line = .ok (evs', k?) := by
  unfold stepView at h ⊢
  cases hr : lineRecord line with
  | error e => rw [hr] at h; cases h
  | ok r =>
    rw [hr] at h
    cases r with
    | none => cases h; exact ⟨[], rfl⟩
    | some q =>
      obtain ⟨ip, port, u, va, br, bs⟩ := q
      cases h
      exact ⟨_, rfl⟩

theorem parseLines_ok_any_last : ∀ (ls : List Str) (last last' cur : List Str)
    (evs : List ConnectionEvent) (cur' : List Str),
    parseLines last cur ls = .ok (evs, cur') →
    ∃ evs', parseLines last' cur ls = .ok (evs', cur')
  | [], last, last', cur, evs, cur' => by
    intro h
    exact ⟨[], by rw [(parseLines_nil_ok h).2]; simp only [parseLines]⟩
  | line :: rest, last, last', cur, evs, cur' => by
    intro h
    obtain ⟨evs1, cur1, evs2, hs, hp, rfl⟩ := parseLines_cons_ok h
    obtain ⟨k?, hv, hcur1⟩ := stepStatusLine_ok hs
    obtain ⟨evs1', hv'⟩ := stepView_any_last last' hv
    obtain ⟨evs2', hp'⟩ := parseLines_ok_any_last rest last last' cur1 evs2 cur' hp
    refine ⟨evs1' ++ evs2', ?_⟩
    have hs' : stepStatusLine last' cur line = .ok (evs1', cur1) := by
      unfold stepStatusLine
      rw [hv']
      cases k? with
      | none => rw [hcur1]
      | some key => rw [hcur1]
    simp only [parseLines]
    rw [hs']
    have h3 : (match parseLines last' cur1 rest with
               | Except.error _ => (Except.error () : Except Unit (List ConnectionEvent × List Str))
               | Except.ok (evs2, cur2) => Except.ok (evs1' ++ evs2, cur2))
        = Except.ok (evs1' ++ evs2', cur') := by
      rw [hp']
    exact h3

theorem filter_eq_length_one {l : List Str} {K : Str} (hn : l.Nodup) (hm : K ∈ l) :
    (l.filter (fun k => decide (k = K))).length = 1 := by
  induction l with
  | nil => cases hm
  | cons a l ih =>
    rw [List.filter_cons]
    rcases List.mem_cons.mp hm with rfl | hm'
    · rw [if_pos (by simp)]
      have hnil : l.filter (fun k => decide (k = K)) = [] := by
        rw [List.filter_eq_nil_iff]
        intro b hb
        simp only [decide_eq_true_eq]
        intro hbK
        exact (List.nodup_cons.mp hn).1 (hbK ▸ hb)
      rw [hnil]
      rfl
    · rw [if_neg (by
        simp only [decide_eq_true_eq]
        intro hh
        exact (List.nodup_cons.mp hn).1 (hh ▸ hm'))]
      exact ih (List.nodup_cons.mp hn).2 hm'

/-- C7: when the snapshot content is unchanged between two consecutive poll
cycles and no bytes were appended to the event log in between (no log file,
or the file has not grown past the recorded offset), and the snapshot lists
each session key once, the second cycle emits only `authenticated` events —
exactly one per already-active session key — and zero `connect` and zero
`disconnect` events. -/
theorem C7_idempotent_repoll
    (st0 : ParserState) (content : Str) (lf2 : Option Str)
    (sevs : List ConnectionEvent) (cur : List Str)
    (hparse : parse_status_log st0.last_clients content = .ok (sevs, cur))
    (hnodup : (recordKeys content).Nodup)
    (hlf2 : lf2 = none ∨ ∃ c2, lf2 = some c2 ∧ c2.length ≤ st0.log_last_position) :
    (∀ e ∈ (process_logs (process_logs st0 none (some content)).2 lf2 (some content)).1,
      e.event_type = authT) ∧
    (∀ K ∈ ((process_logs st0 none (some content)).2).last_clients,
      countKey authT K
        (process_logs (process_logs st0 none (some content)).2 lf2 (some content)).1 = 1) := by
  have hst1 : (process_logs st0 none (some content)).2
      = { last_clients := cur, active_sessions := st0.active_sessions,
          log_last_position := st0.log_last_position } := by
    rw [@process_logs_some_ok st0 none content sevs cur hparse]
    rfl
  obtain ⟨recEvs, discs, hrec0, hdiscs0, hevssplit⟩ := parse_status_log_ok hparse
  obtain ⟨recEvs2, hrec2⟩ :=
    parseLines_ok_any_last _ st0.last_clients cur [] recEvs cur hrec0
  have hfilter : List.filter (fun g => !(decide (g ∈ cur))) cur = [] := by
    rw [List.filter_eq_nil_iff]
    intro g hg
    simp [hg]
  have hparse2 : parse_status_log cur content = .ok (recEvs2, cur) := by
    unfold parse_status_log
    rw [hrec2]
    show (match mapSnapshotDisconnects (List.filter (fun g => !(decide (g ∈ cur))) cur) with
          | Except.error _ => (Except.error () : Except Unit (List ConnectionEvent × List Str))
          | Except.ok discs => Except.ok (recEvs2 ++ discs, cur)) = Except.ok (recEvs2, cur)
    rw [hfilter]
    show Except.ok (recEvs2 ++ [], cur) = Except.ok (recEvs2, cur)
    rw [List.append_nil]
  have hscan2 : scanLogLines st0.active_sessions
      (get_new_log_lines lf2 st0.log_last_position).1 = ([], st0.active_sessions) := by
    rcases hlf2 with rfl | ⟨c2, rfl, hlen⟩
    · rfl
    · by_cases hle : st0.log_last_position ≤ c2.length
      · have heq : st0.log_last_position = c2.length := Nat.le_antisymm hle hlen
        have hlines : (get_new_log_lines (some c2) st0.log_last_position).1 = [[]] := by
          simp only [get_new_log_lines]
          rw [if_pos hle, heq, List.drop_length]
          rfl
        rw [hlines]
        exact scanLogLines_silent _ _ (fun l hl => by
          rcases List.mem_singleton.mp hl with rfl
          exact ⟨rfl, rfl⟩)
      · have hlines : (get_new_log_lines (some c2) st0.log_last_position).1 = [] := by
          simp only [get_new_log_lines]
          rw [if_neg hle]
        rw [hlines]
        rfl
  have hout2 : (process_logs (⟨cur, st0.active_sessions, st0.log_last_position⟩ : ParserState)
      lf2 (some content)).1
      = enrichFilter st0.active_sessions recEvs2 := by
    rw [@process_logs_some_ok
      (⟨cur, st0.active_sessions, st0.log_last_position⟩ : ParserState)
      lf2 content recEvs2 cur hparse2]
    show (scanLogLines st0.active_sessions (get_new_log_lines lf2 st0.log_last_position).1).1
        ++ enrichFilter
            (scanLogLines st0.active_sessions (get_new_log_lines lf2 st0.log_last_position).1).2
            recEvs2
        = enrichFilter st0.active_sessions recEvs2
    rw [hscan2]
    rfl
  have hallauth : ∀ e ∈ recEvs2, e.event_type = authT := by
    intro e he
    rcases parseLines_events_shape _ _ _ _ _ hrec2 e he with hty | ⟨_, hnot, hmem⟩
    · exact hty
    · exact absurd ((parseLines_mem_current _ _ _ _ _ hrec2 (keyOf e)).mpr
        (Or.inr hmem)) hnot
  constructor
  · intro e he
    rw [hst1, hout2] at he
    obtain ⟨e0, he0, heq, _⟩ := enrichFilter_mem _ _ _ he
    rw [heq, enrichOne_type]
    exact hallauth e0 he0
  · intro K hK
    rw [hst1] at hK
    rw [hst1, hout2]
    rw [enrichFilter_nonconnect_map _ _
      (fun e he => fun hc => authT_ne_connectT ((hallauth e he) ▸ hc))]
    rw [countKey_map_enrichOne]
    rw [parseLines_count_auth _ _ _ _ _ hrec2 K]
    refine filter_eq_length_one hnodup ?_
    have := (parseLines_mem_current _ _ _ _ _ hrec2 K).mp hK
    rcases this with hnil | hmem
    · cases hnil
    · exact hmem

theorem C7_witness :
    countKey authT exKey
      (process_logs (process_logs initState none (some exSnap)).2 none (some exSnap)).1 = 1 := by
  refine (C7_idempotent_repoll initState exSnap none
    [{ event_type := connectT, client_ip := "10.0.0.5".toList, client_port := 5000,
       username := none, virtual_ip := some ("10.8.0.4".toList),
       bytes_received := some 100, bytes_sent := some 200 },
     { event_type := authT, client_ip := "10.0.0.5".toList, client_port := 5000,
       username := none, virtual_ip := some ("10.8.0.4".toList),
       bytes_received := some 100, bytes_sent := some 200 }]
    [exKey] (by decide) (by decide) (Or.inl rfl)).2 exKey (by decide)

theorem countKey_eq_zero_of_type_ne {t K : Str} :
    ∀ evs : List ConnectionEvent, (∀ e ∈ evs, ¬ e.event_type = t) →
    countKey t K evs = 0
  | [] => fun _ => rfl
  | e :: evs => fun h => by
    rw [countKey_cons, if_neg (fun hc => h e (by simp) hc.1)]
    rw [countKey_eq_zero_of_type_ne evs (fun e' he' => h e' (List.mem_cons_of_mem _ he'))]

theorem disconnectT_ne_authT : disconnectT ≠ authT := by decide

theorem countKey_enrichFilter_auth (s : List (Str × Str)) (K : Str) :
    ∀ evs : List ConnectionEvent,
    countKey authT K (enrichFilter s evs) = countKey authT K evs
  | [] => rfl
  | e :: evs => by
    simp only [enrichFilter]
    by_cases hc : ((enrichOne s e).event_type = connectT ∧ dictContains s (keyOf e) = true)
    · rw [if_pos hc]
      rw [countKey_enrichFilter_auth s K evs]
      have he : e.event_type = connectT := (enrichOne_type s e) ▸ hc.1
      rw [countKey_cons, if_neg (fun hh => authT_ne_connectT (hh.1.symm.trans he))]
      simp
    · rw [if_neg hc]
      rw [countKey_cons, countKey_cons, enrichOne_type, enrichOne_key]
      rw [countKey_enrichFilter_auth s K evs]

/-- The session registry is written only by the log-increment scan: the
snapshot phase of `process_logs` leaves `active_sessions` untouched. -/
theorem process_logs_sessions_eq (st : ParserState) (lf sf : Option Str) :
    (process_logs st lf sf).2.active_sessions
      = (scanLogLines st.active_sessions (get_new_log_lines lf st.log_last_position).1).2 := by
  unfold process_logs
  cases sf with
  | none => rfl
  | some content =>
    cases hp : parse_status_log st.last_clients content with
    | error e => simp [hp]
    | ok r => obtain ⟨evs, cur⟩ := r; simp [hp]

/-- C8 (amended): per poll cycle each session key in the parsed snapshot
(listed once) yields exactly one `authenticated` event; the emitted event's
username is the registry's whenever the key is registered — overriding any
username supplied by the snapshot record itself — and only an event whose
key is absent from the registry passes through unchanged, keeping the
snapshot-supplied username. -/
theorem C8_amended_heartbeat_username
    (st : ParserState) (lf : Option Str) (content : Str)
    (sevs : List ConnectionEvent) (cur : List Str)
    (hparse : parse_status_log st.last_clients content = .ok (sevs, cur))
    (hnodup : (recordKeys content).Nodup) :
    (∀ K ∈ cur, countKey authT K (process_logs st lf (some content)).1 = 1) ∧
    (∀ (S : List (Str × Str)) (evs : List ConnectionEvent) (e : ConnectionEvent) (u : Str),
      e ∈ enrichFilter S evs → dictGet S (keyOf e) = some u → e.username = some u) ∧
    (∀ (S : List (Str × Str)) (evs : List ConnectionEvent) (e : ConnectionEvent),
      e ∈ enrichFilter S evs → dictGet S (keyOf e) = none → e ∈ evs) := by
  refine ⟨?_, ?_, ?_⟩
  · intro K hK
    obtain ⟨recEvs, discs, hrec, hdiscs, rfl⟩ := parse_status_log_ok hparse
    have hout := @process_logs_some_ok st lf content (recEvs ++ discs) cur hparse
    rw [hout, countKey_append, enrichFilter_append, countKey_append]
    have hscan0 : countKey authT K
        (scanLogLines st.active_sessions (get_new_log_lines lf st.log_last_position).1).1 = 0 := by
      refine countKey_eq_zero_of_type_ne _ (fun e he => ?_)
      rw [(scanLogLines_events _ _ _ he).1]
      exact disconnectT_ne_authT
    have hdisc0 : countKey authT K
        (enrichFilter
          (scanLogLines st.active_sessions (get_new_log_lines lf st.log_last_position).1).2
          discs) = 0 := by
      refine countKey_eq_zero_of_type_ne _ (fun e he => ?_)
      obtain ⟨e0, he0, heq, _⟩ := enrichFilter_mem _ _ _ he
      obtain ⟨g, _, hok⟩ := mapSnapshotDisconnects_mem _ _ hdiscs e0 he0
      rw [heq, enrichOne_type, (mkSnapshotDisconnect_ok hok).1]
      exact disconnectT_ne_authT
    rw [hscan0, hdisc0, countKey_enrichFilter_auth]
    rw [parseLines_count_auth _ _ _ _ _ hrec K]
    have hKmem : K ∈ (splitOnChar '\n' content).filterMap lineKey := by
      rcases (parseLines_mem_current _ _ _ _ _ hrec K).mp hK with hnil | hmem
      · cases hnil
      · exact hmem
    have hnodup' : ((splitOnChar '\n' content).filterMap lineKey).Nodup := hnodup
    rw [filter_eq_length_one hnodup' hKmem]
  · intro S evs e u he hget
    obtain ⟨e0, he0, heq, _⟩ := enrichFilter_mem _ _ _ he
    have hk0 : keyOf e0 = keyOf e := by rw [heq, enrichOne_key]
    rw [heq, enrichOne_of_get_some (by rw [hk0]; exact hget)]
  · intro S evs e he hget
    obtain ⟨e0, he0, heq, _⟩ := enrichFilter_mem _ _ _ he
    have hk0 : keyOf e0 = keyOf e := by rw [heq, enrichOne_key]
    rw [heq, enrichOne_of_get_none (by rw [hk0]; exact hget)]
    rw [heq, enrichOne_of_get_none (by rw [hk0]; exact hget)] at he
    exact he0

theorem C8_witness :
    countKey authT exKey9 (process_logs exState9 none (some exSnapUser)).1 = 1 :=
  (C8_amended_heartbeat_username exState9 none exSnapUser
    [{ event_type := authT, client_ip := "1.2.3.4".toList, client_port := 9,
       username := some ("bob".toList), virtual_ip := some ("10.8.0.9".toList),
       bytes_received := some 1, bytes_sent := some 1 }]
    [exKey9] (by decide) (by decide)).1 exKey9 (by decide)

/-- C6 (amended): a poll cycle's event list is three contiguous blocks:
logout-derived disconnects first, then the snapshot records' events in
record order — where each surviving `connect` is immediately followed by
the `authenticated` heartbeat of the same session key (connects and
heartbeats interleave per record rather than forming separate contiguous
segments), then snapshot-derived disconnects. -/
theorem C6_amended_order
    (st : ParserState) (lf : Option Str) (content : Str)
    (sevs : List ConnectionEvent) (cur : List Str)
    (hparse : parse_status_log st.last_clients content = .ok (sevs, cur)) :
    ∃ A B C, (process_logs st lf (some content)).1 = A ++ B ++ C ∧
      (∀ e ∈ A, e.event_type = disconnectT) ∧ ConnAuthChain B ∧
      (∀ e ∈ C, e.event_type = disconnectT) := by
  obtain ⟨recEvs, discs, hrec, hdiscs, rfl⟩ := parse_status_log_ok hparse
  have hout := @process_logs_some_ok st lf content (recEvs ++ discs) cur hparse
  refine ⟨(scanLogLines st.active_sessions (get_new_log_lines lf st.log_last_position).1).1,
    enrichFilter (scanLogLines st.active_sessions (get_new_log_lines lf st.log_last_position).1).2
      recEvs,
    enrichFilter (scanLogLines st.active_sessions (get_new_log_lines lf st.log_last_position).1).2
      discs,
    ?_, ?_, ?_, ?_⟩
  · rw [hout, enrichFilter_append, ← List.append_assoc]
  · intro e he
    exact (scanLogLines_events _ _ _ he).1
  · exact enrichFilter_chain (parseLines_chain _ _ _ _ _ hrec)
  · intro e he
    obtain ⟨e0, he0, heq, _⟩ := enrichFilter_mem _ _ _ he
    obtain ⟨g, _, hok⟩ := mapSnapshotDisconnects_mem _ _ hdiscs e0 he0
    rw [heq, enrichOne_type]
    exact (mkSnapshotDisconnect_ok hok).1

theorem C6_witness :
    ∃ A B C, (process_logs initState none (some exSnap)).1 = A ++ B ++ C ∧
      (∀ e ∈ A, e.event_type = disconnectT) ∧ ConnAuthChain B ∧
      (∀ e ∈ C, e.event_type = disconnectT) :=
  C6_amended_order initState none exSnap
    [{ event_type := connectT, client_ip := "10.0.0.5".toList, client_port := 5000,
       username := none, virtual_ip := some ("10.8.0.4".toList),
       bytes_received := some 100, bytes_sent := some 200 },
     { event_type := authT, client_ip := "10.0.0.5".toList, client_port := 5000,
       username := none, virtual_ip := some ("10.8.0.4".toList),
       bytes_received := some 100, bytes_sent := some 200 }]
    [exKey] (by decide)

/-- C10: once a session key K has a registry entry, and no cycle's log
increment ever matches a logout signal for K, K's registry entry persists
through every later poll cycle — a snapshot-derived disconnect does not
remove it — and consequently no cycle ever emits a `connect` event for K:
K's reappearances in the snapshot surface only as authenticated
heartbeats. -/
theorem C10_registry_persists_no_reconnect_event (K : Str) :
    ∀ (cycles : List (Option Str × Option Str)) (st : ParserState),
    dictContains st.active_sessions K = true →
    (∀ lf sf, (lf, sf) ∈ cycles → ∀ pos : Nat, ∀ line ∈ (get_new_log_lines lf pos).1,
      logoutKey line ≠ some K) →
    dictContains (runCycles st cycles).2.active_sessions K = true ∧
    ∀ evs ∈ (runCycles st cycles).1, ∀ e ∈ evs, e.event_type = connectT → keyOf e ≠ K
  | [], st => by
    intro h _
    exact ⟨h, by intro evs hevs; cases hevs⟩
  | (lf, sf) :: rest, st => by
    intro h hno
    have hno1 : ∀ line ∈ (get_new_log_lines lf st.log_last_position).1,
        logoutKey line ≠ some K :=
      fun line hl => hno lf sf (by simp) st.log_last_position line hl
    have hK1 : dictContains (process_logs st lf sf).2.active_sessions K = true := by
      rw [process_logs_sessions_eq]
      exact scanLogLines_contains_preserved _ _ _ h hno1
    have hev1 : ∀ e ∈ (process_logs st lf sf).1, e.event_type = connectT → keyOf e ≠ K := by
      intro e he ht hke
      cases sf with
      | none =>
        have h1 : (process_logs st lf none).1
            = (scanLogLines st.active_sessions (get_new_log_lines lf st.log_last_position).1).1 := rfl
        rw [h1] at he
        exact disconnectT_ne_connectT ((scanLogLines_events _ _ _ he).1.symm.trans ht)
      | some content =>
        cases hp : parse_status_log st.last_clients content with
        | error err =>
          have h1 : (process_logs st lf (some content)).1 = [] := by
            simp only [process_logs]
            rw [hp]
          rw [h1] at he
          cases he
        | ok r =>
          obtain ⟨sevs, cur⟩ := r
          have hout := @process_logs_some_ok st lf content sevs cur hp
          rw [hout] at he
          rcases List.mem_append.mp he with h1 | h2
          · exact disconnectT_ne_connectT ((scanLogLines_events _ _ _ h1).1.symm.trans ht)
          · obtain ⟨e0, he0, heq, himp⟩ := enrichFilter_mem _ _ _ h2
            have hc := himp ht
            rw [show keyOf e0 = K from by rw [← hke, heq, enrichOne_key]] at hc
            have hS : dictContains
                (scanLogLines st.active_sessions
                  (get_new_log_lines lf st.log_last_position).1).2 K = true :=
              scanLogLines_contains_preserved _ _ _ h hno1
            rw [hS] at hc
            cases hc
    have ih := C10_registry_persists_no_reconnect_event K rest (process_logs st lf sf).2 hK1
      (fun lf' sf' hmem => hno lf' sf' (List.mem_cons_of_mem _ hmem))
    constructor
    · simp only [runCycles]
      exact ih.1
    · intro evs hevs e he ht
      simp only [runCycles] at hevs
      rcases List.mem_cons.mp hevs with rfl | hrest
      · exact hev1 e he ht
      · exact ih.2 evs hrest e he ht

theorem C10_witness :
    dictContains (runCycles (⟨[], [(exKey9, "alice".toList)], 0⟩ : ParserState)
        [(none, some exSnapUser)]).2.active_sessions exKey9 = true := by
  refine (C10_registry_persists_no_reconnect_event exKey9 [(none, some exSnapUser)]
    (⟨[], [(exKey9, "alice".toList)], 0⟩ : ParserState) (by decide) ?_).1
  intro lf sf hmem pos line hline
  have hlf : lf = none := congrArg Prod.fst (List.mem_singleton.mp hmem)
  rw [hlf] at hline
  cases hline
